import Mathlib

/-!
Verification development for the PySpeed web container sources
(`src/cpp/json_accelerator.{hpp,cpp}`, `src/cpp/request_parser.{hpp,cpp}`,
`src/cpp/static_handler.{hpp,cpp}`).  Each C++ routine relevant to the
specification claims is translated into an executable Lean definition; the
claims are then settled as theorems about those definitions.

Modelling conventions:
* `std::string` is modelled by `String` / `List Char` (bytes are chars).
* machine integers (`size_t`) are modelled by `Nat`; where wrap-around is
  observable the arithmetic is taken modulo `2 ^ 64` explicitly.
* `double` is modelled by an exact (sign, numerator, power-of-ten
  denominator) decimal fraction; every numeric literal exercised below is a
  small integer, on which IEEE-754 doubles are exact.
* C++ exceptions are modelled by `Except String` (the thrown message).
* `std::unordered_map` is modelled by an association list; where the claims
  observe the container's iteration order the libstdc++ behaviour is
  modelled explicitly (see `umAssign`), otherwise only lookup/update are
  relevant and a plain association list is used.
-/

set_option maxRecDepth 8000

/-! ## Basic character and string helpers shared by all components -/

/-- Models `::tolower` (C locale) on a single byte: only ASCII A-Z map. -/
def asciiLower (c : Char) : Char :=
  if 'A' ≤ c ∧ c ≤ 'Z' then Char.ofNat (c.toNat + 32) else c

/-- Models `std::transform(s.begin(), s.end(), s.begin(), ::tolower)`. -/
def strLower (s : String) : String :=
  String.mk (s.data.map asciiLower)

/-- Association-list lookup, modelling `std::unordered_map::find`. -/
def alookup {α : Type} (m : List (String × α)) (k : String) : Option α :=
  (m.find? (fun p => p.1 = k)).map (fun p => p.2)

/-- Association-list update, modelling `map[k] = v`: replace the mapped value
of an existing key in place, otherwise add the new key.  None of the
properties below observe the iteration order of the containers modelled with
`aset` (the JSON object container, whose order is observed, has its own
update `umAssign`), so a fresh key is appended. -/
def aset {α : Type} (m : List (String × α)) (k : String) (v : α) :
    List (String × α) :=
  match m with
  | [] => [(k, v)]
  | p :: rest => if p.1 = k then (k, v) :: rest else p :: aset rest k v

/-- Association-list removal, modelling `std::unordered_map::erase(key)`. -/
def aerase {α : Type} (m : List (String × α)) (k : String) :
    List (String × α) :=
  m.filter (fun p => p.1 ≠ k)

/-- Models `std::string::find(pat) != npos` (substring containment). -/
def containsSub : List Char → List Char → Bool
  | [], pat => pat.isEmpty
  | c :: rest, pat => pat.isPrefixOf (c :: rest) || containsSub rest pat

/-! ## JSON value tree (`json_accelerator.hpp`)

The C++ `JsonValue` is a `std::variant` over null / bool / double / string /
`std::vector<JsonValue>` / `std::unordered_map<std::string, JsonValue>`;
it becomes a Lean inductive.  The object alternative keeps its members in the
container's iteration order. -/

/-- Exact value of a parsed JSON number, kept as an unreduced decimal
fraction `num / den` (with `den` a positive power of ten) and a sign: the
stand-in for the IEEE-754 double produced by `std::stod` (rounding the
decimal to the nearest double is elided; it is exact on the small integers
appearing in this development).  Only the represented value is ever
observed, via `serialize_number`. -/
structure DecNum where
  neg : Bool
  num : Nat
  den : Nat

inductive JsonValue where
  | null : JsonValue
  | bool (b : Bool) : JsonValue
  | num (q : DecNum) : JsonValue
  | str (s : String) : JsonValue
  | arr (elems : List JsonValue) : JsonValue
  | obj (members : List (String × JsonValue)) : JsonValue

/-- Models the container update `obj[key] = value` on the C++ `JsonObject`
(`std::unordered_map<std::string, JsonValue>`), keeping the list in the
container's iteration order.  libstdc++'s hashtable links a freshly inserted
node at the head of its bucket chain, so a new key appears first in iteration
order, while an existing key keeps its position and only has its mapped value
replaced.  For objects of at most two keys — the only sizes whose order is
observed below — this newest-first order holds for every hash function and
bucket layout. -/
def umAssign (m : List (String × JsonValue)) (k : String) (v : JsonValue) :
    List (String × JsonValue) :=
  if m.any (fun p => p.1 = k) then
    m.map (fun p => if p.1 = k then (k, v) else p)
  else (k, v) :: m

/-- Models the mutating `JsonValue::set(key, value)`
(`json_accelerator.cpp:90-110`): a null value is first replaced by an empty
object, any other non-object value throws `"JsonValue is not an object"`,
then `obj[key] = value`. -/
def JsonValue.setKey (v : JsonValue) (k : String) (newv : JsonValue) :
    Except String JsonValue :=
  match v with
  | .null => .ok (.obj (umAssign [] k newv))
  | .obj m => .ok (.obj (umAssign m k newv))
  | _ => .error "JsonValue is not an object"

/-- Models the chain `j[k1][k2]...[kn] = value` built from the mutating
`JsonValue::operator[](const std::string&)` (`json_accelerator.cpp:58-68`)
followed by assignment: each `operator[]` on a null value first replaces it
with an empty object, on a non-object non-null value throws
`"JsonValue is not an object"`, and otherwise returns (a reference to) the
mapped value, default-inserting a null at a missing key.  The functional
model threads the updated object back; a default-insert whose continuation
throws is not re-committed, a corner no property below reaches (the chain
only throws at its very first step). -/
def JsonValue.setPath (v : JsonValue) (ks : List String) (newv : JsonValue) :
    Except String JsonValue :=
  match ks with
  | [] => .ok newv
  | k :: rest =>
    match v with
    | .null =>
      match JsonValue.setPath .null rest newv with
      | .ok sub => .ok (.obj (umAssign [] k sub))
      | .error e => .error e
    | .obj m =>
      let cur := (alookup m k).getD .null
      match JsonValue.setPath cur rest newv with
      | .ok sub => .ok (.obj (umAssign m k sub))
      | .error e => .error e
    | _ => .error "JsonValue is not an object"

/-- True on the bool / number / string / array alternatives: the values on
which the mutating `operator[]` and `set` throw. -/
def JsonValue.isPrimOrArr : JsonValue → Bool
  | .bool _ => true
  | .num _ => true
  | .str _ => true
  | .arr _ => true
  | _ => false

mutual

/-- Nesting depth of a parsed value: arrays and objects add one level. -/
def jsonDepth : JsonValue → Nat
  | .null => 0
  | .bool _ => 0
  | .num _ => 0
  | .str _ => 0
  | .arr elems => 1 + jsonDepthList elems
  | .obj members => 1 + jsonDepthMembers members

/-- Maximum nesting depth of a list of values. -/
def jsonDepthList : List JsonValue → Nat
  | [] => 0
  | v :: rest => max (jsonDepth v) (jsonDepthList rest)

/-- Maximum nesting depth of object members. -/
def jsonDepthMembers : List (String × JsonValue) → Nat
  | [] => 0
  | p :: rest => max (jsonDepth p.2) (jsonDepthMembers rest)

end

/-! ## JSON parser (`json_accelerator.cpp:125-492`) -/

/-- Models `JsonParser::Config` (`json_accelerator.hpp:156-163`). -/
structure PConfig where
  allow_comments : Bool := false
  allow_trailing_commas : Bool := false
  strict_mode : Bool := true
  max_depth : Nat := 100
  max_string_length : Nat := 1024 * 1024
  use_simd : Bool := true

/-- Models `JsonParser::is_whitespace`. -/
def is_whitespace (c : Char) : Bool :=
  c = ' ' || c = '\t' || c = '\n' || c = '\r'

/-- Models `JsonParser::is_digit`. -/
def is_digit (c : Char) : Bool :=
  '0' ≤ c && c ≤ '9'

/-- Models the scan of `skip_comments` over a `/*...*/` block: advance to just
past the terminating star-slash, or to the end when unterminated. -/
def dropBlockComment : List Char → List Char
  | [] => []
  | '*' :: '/' :: rest => rest
  | _ :: rest => dropBlockComment rest

/-- Models `JsonParser::skip_comments` (fuelled; each iteration consumes at
least the two comment-opener characters). -/
def skip_comments : Nat → List Char → List Char
  | 0, cs => cs
  | fuel + 1, cs =>
    match cs with
    | '/' :: '/' :: rest =>
      skip_comments fuel ((rest.dropWhile (fun c => c ≠ '\n')).dropWhile is_whitespace)
    | '/' :: '*' :: rest =>
      skip_comments fuel ((dropBlockComment rest).dropWhile is_whitespace)
    | _ => cs

/-- Models `JsonParser::skip_whitespace`: with `use_simd` (the default) only
whitespace is skipped — the comment pass is bypassed even when
`allow_comments` is set, exactly as in the source. -/
def skip_whitespace (cfg : PConfig) (cs : List Char) : List Char :=
  if cfg.use_simd then cs.dropWhile is_whitespace
  else
    let cs := cs.dropWhile is_whitespace
    if cfg.allow_comments then skip_comments cs.length cs else cs

/-- Models the string-body scan of `JsonParser::parse_string`
(`json_accelerator.cpp:304-330`): return the raw span up to the closing
quote and the remainder after it, or an error on an unterminated string. -/
def scan_string_end : List Char → Except String (List Char × List Char)
  | [] => .error "Unterminated string"
  | '"' :: rest => .ok ([], rest)
  | '\\' :: [] => .error "Unterminated string escape"
  | '\\' :: c :: rest =>
    match scan_string_end rest with
    | .ok (span, after) => .ok ('\\' :: c :: span, after)
    | .error e => .error e
  | c :: rest =>
    match scan_string_end rest with
    | .ok (span, after) => .ok (c :: span, after)
    | .error e => .error e

/-- Models `JsonParser::decode_string` (`json_accelerator.cpp:448-485`),
fuelled by the span length.  Note the source's placeholder handling of
`\uXXXX`: the four hex digits are skipped and a single `?` is emitted. -/
def decode_string : Nat → List Char → Except String (List Char)
  | 0, _ => .ok []
  | _, [] => .ok []
  | fuel + 1, c :: rest =>
    if c = '\\' then
      match rest with
      | [] => .error "Unterminated escape sequence"
      | e :: rest2 =>
        let emit (d : Char) (tail : List Char) : Except String (List Char) :=
          match decode_string fuel tail with
          | .ok out => .ok (d :: out)
          | .error msg => .error msg
        if e = '"' then emit '"' rest2
        else if e = '\\' then emit '\\' rest2
        else if e = '/' then emit '/' rest2
        else if e = 'b' then emit (Char.ofNat 8) rest2
        else if e = 'f' then emit (Char.ofNat 12) rest2
        else if e = 'n' then emit '\n' rest2
        else if e = 'r' then emit '\r' rest2
        else if e = 't' then emit '\t' rest2
        else if e = 'u' then
          if rest2.length < 4 then .error "Invalid unicode escape"
          else emit '?' (rest2.drop 4)
        else .error "Invalid escape character"
    else
      match decode_string fuel rest with
      | .ok out => .ok (c :: out)
      | .error msg => .error msg

/-- Models `JsonParser::parse_string`: expect `"`, scan to the closing quote,
decode the span. -/
def parse_string_tok (cs : List Char) :
    Except String (String × List Char) :=
  match cs with
  | '"' :: rest =>
    match scan_string_end rest with
    | .ok (span, after) =>
      match decode_string span.length span with
      | .ok out => .ok (String.mk out, after)
      | .error e => .error e
    | .error e => .error e
  | _ => .error "Expected string"

/-- Decimal value of a digit span, most significant digit first (the
accumulation `std::stod` and `std::stoull` perform). -/
def digitsVal (ds : List Char) : Nat :=
  ds.foldl (fun a c => a * 10 + (c.toNat - 48)) 0

/-- Models `std::stod` on a scanned JSON number token, as the exact decimal
value `mantissa · 10^±exp` of the literal. -/
def stodM (neg : Bool) (intD fracD : List Char) (expNeg : Bool)
    (expD : List Char) : DecNum :=
  let m := digitsVal (intD ++ fracD)
  let e := digitsVal expD
  if expNeg then ⟨neg, m, 10 ^ (fracD.length + e)⟩
  else ⟨neg, m * 10 ^ e, 10 ^ fracD.length⟩

/-- Models `JsonParser::parse_number` (`json_accelerator.cpp:332-383`):
optional minus, integer part (a single `0` or a nonzero-led digit run),
optional fraction, optional exponent; the token is converted by `stodM`. -/
def parse_number_tok (cs : List Char) :
    Except String (JsonValue × List Char) :=
  let (neg, cs1) := match cs with
    | '-' :: rest => (true, rest)
    | _ => (false, cs)
  match cs1 with
  | c :: _ =>
    if is_digit c then
      let (intD, cs2) :=
        if c = '0' then (['0'], cs1.tail)
        else (cs1.takeWhile is_digit, cs1.dropWhile is_digit)
      let afterInt : Except String (List Char × List Char) :=
        match cs2 with
        | '.' :: rest =>
          match rest with
          | d :: _ =>
            if is_digit d then
              .ok (rest.takeWhile is_digit, rest.dropWhile is_digit)
            else .error "Invalid decimal number"
          | [] => .error "Invalid decimal number"
        | _ => .ok ([], cs2)
      match afterInt with
      | .error e => .error e
      | .ok (fracD, cs3) =>
        let afterExp : Except String (Bool × List Char × List Char) :=
          match cs3 with
          | e :: rest =>
            if e = 'e' || e = 'E' then
              let (expNeg, rest2) := match rest with
                | '+' :: r => (false, r)
                | '-' :: r => (true, r)
                | r => (false, r)
              match rest2 with
              | d :: _ =>
                if is_digit d then
                  .ok (expNeg, rest2.takeWhile is_digit, rest2.dropWhile is_digit)
                else .error "Invalid number exponent"
              | [] => .error "Invalid number exponent"
            else .ok (false, [], cs3)
          | [] => .ok (false, [], cs3)
        match afterExp with
        | .error e => .error e
        | .ok (expNeg, expD, cs4) =>
          .ok (.num (stodM neg intD fracD expNeg expD), cs4)
    else .error "Invalid number"
  | [] => .error "Invalid number"

/-- Models `JsonParser::parse_literal` (`json_accelerator.cpp:385-398`). -/
def parse_literal_tok (cs : List Char) :
    Except String (JsonValue × List Char) :=
  if ("true".data).isPrefixOf cs then .ok (.bool true, cs.drop 4)
  else if ("false".data).isPrefixOf cs then .ok (.bool false, cs.drop 5)
  else if ("null".data).isPrefixOf cs then .ok (.null, cs.drop 4)
  else .error "Invalid literal"

mutual

/-- Models `JsonParser::parse_value` (`json_accelerator.cpp:168-192`).  The
fuel argument only serves Lean's termination checker; `parseJson` supplies
more fuel than the recursion can consume (each level of nesting and each
container element consumes at least one input character), so the fuel-out
branch is unreachable from `parseJson`.  Note that the source consults no
depth counter here: `Config::max_depth` is never read. -/
def parse_value (cfg : PConfig) : Nat → List Char → Except String (JsonValue × List Char)
  | 0, _ => .error "out of fuel"
  | fuel + 1, cs =>
    let cs := skip_whitespace cfg cs
    match cs with
    | [] => .error "Unexpected end of input"
    | c :: _ =>
      if c = '{' then parse_object cfg fuel cs
      else if c = '[' then parse_array cfg fuel cs
      else if c = '"' then
        match parse_string_tok cs with
        | .ok (s, rest) => .ok (.str s, rest)
        | .error e => .error e
      else if c = 't' || c = 'f' || c = 'n' then parse_literal_tok cs
      else if c = '-' || is_digit c then parse_number_tok cs
      else .error ("Unexpected character: " ++ String.mk [c])

/-- Models `JsonParser::parse_object` (`json_accelerator.cpp:194-255`). -/
def parse_object (cfg : PConfig) : Nat → List Char → Except String (JsonValue × List Char)
  | 0, _ => .error "out of fuel"
  | fuel + 1, cs =>
    match cs with
    | '{' :: rest =>
      let rest := skip_whitespace cfg rest
      match rest with
      | '}' :: rest2 => .ok (.obj [], rest2)
      | _ => parse_object_loop cfg fuel [] rest
    | _ => .error "Expected object opener"

/-- Models the member loop of `JsonParser::parse_object`: key string, colon,
value, then either `}` (done), or `,` (next member; with
`allow_trailing_commas` a `}` directly after the comma also closes). -/
def parse_object_loop (cfg : PConfig) :
    Nat → List (String × JsonValue) → List Char →
    Except String (JsonValue × List Char)
  | 0, _, _ => .error "out of fuel"
  | fuel + 1, acc, cs =>
    let cs := skip_whitespace cfg cs
    match parse_string_tok cs with
    | .error _ => .error "Expected string key"
    | .ok (key, cs1) =>
      let cs1 := skip_whitespace cfg cs1
      match cs1 with
      | ':' :: cs2 =>
        match parse_value cfg fuel cs2 with
        | .error e => .error e
        | .ok (v, cs3) =>
          let acc := umAssign acc key v
          let cs3 := skip_whitespace cfg cs3
          match cs3 with
          | '}' :: cs4 => .ok (.obj acc, cs4)
          | ',' :: cs4 =>
            if cfg.allow_trailing_commas then
              match skip_whitespace cfg cs4 with
              | '}' :: cs5 => .ok (.obj acc, cs5)
              | _ => parse_object_loop cfg fuel acc cs4
            else parse_object_loop cfg fuel acc cs4
          | [] => .error "Unexpected end of object"
          | _ => .error "Expected comma or object closer"
      | _ => .error "Expected colon"

/-- Models `JsonParser::parse_array` (`json_accelerator.cpp:257-302`). -/
def parse_array (cfg : PConfig) : Nat → List Char → Except String (JsonValue × List Char)
  | 0, _ => .error "out of fuel"
  | fuel + 1, cs =>
    match cs with
    | '[' :: rest =>
      let rest := skip_whitespace cfg rest
      match rest with
      | ']' :: rest2 => .ok (.arr [], rest2)
      | _ => parse_array_loop cfg fuel [] rest
    | _ => .error "Expected array opener"

/-- Models the element loop of `JsonParser::parse_array`. -/
def parse_array_loop (cfg : PConfig) :
    Nat → List JsonValue → List Char → Except String (JsonValue × List Char)
  | 0, _, _ => .error "out of fuel"
  | fuel + 1, acc, cs =>
    match parse_value cfg fuel cs with
    | .error e => .error e
    | .ok (v, cs1) =>
      let acc := acc ++ [v]
      let cs1 := skip_whitespace cfg cs1
      match cs1 with
      | ']' :: cs2 => .ok (.arr acc, cs2)
      | ',' :: cs2 =>
        if cfg.allow_trailing_commas then
          match skip_whitespace cfg cs2 with
          | ']' :: cs3 => .ok (.arr acc, cs3)
          | _ => parse_array_loop cfg fuel acc cs2
        else parse_array_loop cfg fuel acc cs2
      | [] => .error "Unexpected end of array"
      | _ => .error "Expected comma or array closer"

end

/-- Models `JsonParser::parse` (`json_accelerator.cpp:132-166`): skip leading
whitespace, reject an empty document, parse one value, and in `strict_mode`
reject trailing non-whitespace.  An `Except.error` corresponds to the C++
throw path (on which `stats_.parse_errors` is incremented before
rethrowing); an `Except.ok` corresponds to the success path (on which
`documents_parsed` is incremented). -/
def parseJson (cfg : PConfig) (s : String) : Except String JsonValue :=
  let cs := s.data
  let cs1 := skip_whitespace cfg cs
  match cs1 with
  | [] => .error "Empty JSON document"
  | _ =>
    match parse_value cfg (4 * cs.length + 4) cs1 with
    | .error e => .error e
    | .ok (v, rest) =>
      let rest := skip_whitespace cfg rest
      if !rest.isEmpty && cfg.strict_mode then
        .error "Unexpected content after JSON document"
      else .ok v

/-! ## JSON serializer (`json_accelerator.cpp:494-662`) -/

/-- Models `JsonSerializer::Config` (`json_accelerator.hpp:250-256`). -/
structure SConfig where
  pretty_print : Bool := false
  indent_size : Nat := 2
  escape_unicode : Bool := false
  sort_keys : Bool := false
  ensure_ascii : Bool := false

/-- Models `JsonSerializer::needs_escaping`. -/
def needs_escaping (c : Char) : Bool :=
  c = '"' || c = '\\' || c.toNat < 0x20

/-- Lowercase hexadecimal digits of a number, width 4 with zero fill
(`std::hex << std::setw(4) << std::setfill('0')`). -/
def hex4 (n : Nat) : String :=
  let ds := Nat.toDigits 16 n
  String.mk (List.replicate (4 - ds.length) '0' ++ ds)

/-- Models `JsonSerializer::escape_string` on one character. -/
def escape_char (c : Char) : String :=
  if needs_escaping c then
    if c = '"' then "\\\""
    else if c = '\\' then "\\\\"
    else if c = Char.ofNat 8 then "\\b"
    else if c = Char.ofNat 12 then "\\f"
    else if c = '\n' then "\\n"
    else if c = '\r' then "\\r"
    else if c = '\t' then "\\t"
    else "\\u" ++ hex4 c.toNat
  else String.mk [c]

/-- Models `JsonSerializer::escape_string`. -/
def escape_string (s : String) : String :=
  String.join (s.data.map escape_char)

/-- Models `JsonSerializer::serialize_string`. -/
def serialize_string (s : String) : String :=
  "\"" ++ escape_string s ++ "\""

/-- Decimal digits of the fractional part `rem/den`, most significant first,
produced by the long division `std::ostream` performs; `fuel` bounds the
number of digits. -/
def fracDigits (fuel : Nat) (rem den : Nat) : List Char :=
  match fuel with
  | 0 => []
  | f + 1 =>
    if rem = 0 then []
    else
      let rem10 := rem * 10
      Nat.digitChar (rem10 / den) :: fracDigits f (rem10 % den) den

/-- Models `oss << std::setprecision(15) << num` (defaultfloat) on the
decimal stand-in for a non-integral double: integer part, then fractional
digits up to 15 significant digits in total, trailing zeros stripped.  No
claim in this development reaches this branch (every serialized number is an
integer); scientific notation for extreme magnitudes and round-to-nearest of
the final digit are elided here. -/
def decimal15 (q : DecNum) : String :=
  let sign := if q.neg ∧ q.num ≠ 0 then "-" else ""
  let ip := q.num / q.den
  let ipDigits := Nat.toDigits 10 ip
  let sigLeft := 15 - (if ip = 0 then 0 else ipDigits.length)
  let frac := fracDigits sigLeft (q.num % q.den) q.den
  let frac := (frac.reverse.dropWhile (fun c => c = '0')).reverse
  if frac.isEmpty then sign ++ String.mk ipDigits
  else sign ++ String.mk ipDigits ++ "." ++ String.mk frac

/-- Models `JsonSerializer::serialize_number` (`json_accelerator.cpp:617-626`):
`num == (long long)num` holds exactly when the double is integral (the
`|num| ≥ 2^63` overflow corner is undefined behaviour in C++ and elided),
in which case `std::to_string((long long)num)` prints the plain integer
(a negative zero prints as `0`); otherwise the value is printed with 15
significant digits. -/
def serialize_number (q : DecNum) : String :=
  if q.num % q.den = 0 then
    let i := q.num / q.den
    (if q.neg ∧ i ≠ 0 then "-" else "") ++ String.mk (Nat.toDigits 10 i)
  else decimal15 q

/-- Models `JsonSerializer::add_indent`. -/
def add_indent (cfg : SConfig) (depth : Nat) : String :=
  String.mk (List.replicate (depth * cfg.indent_size) ' ')

mutual

/-- Models `JsonSerializer::serialize_value` (`json_accelerator.cpp:526-540`). -/
def serialize_value (cfg : SConfig) (depth : Nat) : JsonValue → String
  | .null => "null"
  | .bool b => if b then "true" else "false"
  | .num q => serialize_number q
  | .str s => serialize_string s
  | .arr elems =>
    let inner := serialize_arr_items cfg depth elems true
    let opener := "[" ++ (if cfg.pretty_print && !elems.isEmpty then "\n" else "")
    let closer :=
      (if cfg.pretty_print && !elems.isEmpty then "\n" ++ add_indent cfg depth else "") ++ "]"
    opener ++ inner ++ closer
  | .obj members =>
    let inner := serialize_obj_items cfg depth members true
    let opener := "\x7b" ++ (if cfg.pretty_print then "\n" else "")
    let closer :=
      (if cfg.pretty_print && !members.isEmpty then "\n" ++ add_indent cfg depth else "") ++ "\x7d"
    opener ++ inner ++ closer

/-- Models the element loop of `JsonSerializer::serialize_array`
(`json_accelerator.cpp:581-609`): separators before each element but the
first, indentation under `pretty_print`. -/
def serialize_arr_items (cfg : SConfig) (depth : Nat) :
    List JsonValue → Bool → String
  | [], _ => ""
  | v :: rest, first =>
    let sep := if first then "" else "," ++ (if cfg.pretty_print then "\n" else "")
    let ind := if cfg.pretty_print then add_indent cfg (depth + 1) else ""
    sep ++ ind ++ serialize_value cfg (depth + 1) v ++
      serialize_arr_items cfg depth rest false

/-- Models the member loop of `JsonSerializer::serialize_object`
(`json_accelerator.cpp:542-579`), iterating the members in the stored
container order. -/
def serialize_obj_items (cfg : SConfig) (depth : Nat) :
    List (String × JsonValue) → Bool → String
  | [], _ => ""
  | (k, v) :: rest, first =>
    let sep := if first then "" else "," ++ (if cfg.pretty_print then "\n" else "")
    let ind := if cfg.pretty_print then add_indent cfg (depth + 1) else ""
    sep ++ ind ++ serialize_string k ++ ":" ++
      (if cfg.pretty_print then " " else "") ++
      serialize_value cfg (depth + 1) v ++
      serialize_obj_items cfg depth rest false

end

/-- Models `JsonSerializer::serialize(const JsonValue&)`
(`json_accelerator.cpp:497-520`): serialize from depth 0.  The success path
increments `documents_serialized`/`bytes_serialized`. -/
def serializeJson (cfg : SConfig) (v : JsonValue) : String :=
  serialize_value cfg 0 v

/-! ## Claims about the JSON subsystem -/

/-- The §8.5 test input of the specification. -/
def c4_input : String := "\x7b\"a\": 1, \"b\": [true, null, \"x\"]\x7d"

/-- C4 (evidence for the code bug): the C++ object container is
`std::unordered_map`, which does not keep insertion order; under libstdc++
the two members of the parsed test object iterate newest-first, so parsing
`\x7b"a": 1, "b": [true, null, "x"]\x7d` and serializing compactly yields
`\x7b"b":[true,null,"x"],"a":1\x7d` — not the insertion-ordered string the
claim requires. -/
theorem c4_unordered_object_breaks_insertion_order :
    (parseJson {} c4_input).map (serializeJson {})
        = .ok "\x7b\"b\":[true,null,\"x\"],\"a\":1\x7d"
    ∧ ("\x7b\"b\":[true,null,\"x\"],\"a\":1\x7d" : String)
        ≠ "\x7b\"a\":1,\"b\":[true,null,\"x\"]\x7d" := by
  exact ⟨rfl, by decide⟩

/-- Input of `n` nested arrays: `n` openers followed by `n` closers. -/
def nestedArr (n : Nat) : String :=
  String.mk (List.replicate n '[' ++ List.replicate n ']')

/-- C5 (evidence for the code bug): `JsonParser::parse_value` never consults
`Config::max_depth` — the default configuration caps the depth at 100, yet an
input of nesting depth 101 parses successfully (to a value of depth 101)
instead of reporting an error. -/
theorem c5_max_depth_never_enforced :
    (parseJson {} (nestedArr 101)).map jsonDepth = .ok 101
    ∧ ({} : PConfig).max_depth = 100 ∧ 100 < 101 := by
  exact ⟨rfl, rfl, by decide⟩

/-- C10: the mutating `operator[]`/`set` on a null `JsonValue` silently turn
it into an empty object before inserting; on a bool, number, string or array
value they throw; hence every chain of index assignments that starts from a
default-constructed (null) `JsonValue` succeeds. -/
theorem c10_null_upgrades_to_object :
    (∀ k v, JsonValue.setKey .null k v = .ok (.obj [(k, v)]))
    ∧ (∀ w k v, JsonValue.isPrimOrArr w = true →
        JsonValue.setKey w k v = .error "JsonValue is not an object"
        ∧ JsonValue.setPath w [k] v = .error "JsonValue is not an object")
    ∧ (∀ ks v, ∃ r, JsonValue.setPath .null ks v = .ok r) := by
  refine ⟨fun k v => rfl, fun w k v hw => ?_, fun ks v => ?_⟩
  · cases w <;> simp_all [JsonValue.isPrimOrArr, JsonValue.setKey, JsonValue.setPath]
  · induction ks with
    | nil => exact ⟨v, rfl⟩
    | cons k rest ih =>
      obtain ⟨r, hr⟩ := ih
      exact ⟨.obj (umAssign [] k r), by simp [JsonValue.setPath, hr]⟩

/-- Witness for C10 at concrete inputs: a set on null produces the singleton
object, a set on a bool throws, and the two-level chain from a
default-constructed value succeeds. -/
theorem c10_null_upgrades_to_object_witness :
    JsonValue.setKey .null "a" (.num ⟨false, 1, 1⟩) = .ok (.obj [("a", .num ⟨false, 1, 1⟩)])
    ∧ JsonValue.isPrimOrArr (.bool true) = true
    ∧ JsonValue.setKey (.bool true) "a" (.num ⟨false, 1, 1⟩)
        = .error "JsonValue is not an object"
    ∧ (∃ r, JsonValue.setPath .null ["a", "b"] (.str "x") = .ok r) :=
  ⟨c10_null_upgrades_to_object.1 "a" (.num ⟨false, 1, 1⟩), rfl,
   (c10_null_upgrades_to_object.2.1 (.bool true) "a" (.num ⟨false, 1, 1⟩) rfl).1,
   c10_null_upgrades_to_object.2.2 ["a", "b"] (.str "x")⟩

/-! ## Request parser headers (`request_parser.cpp:81-91`) -/

/-- Models `RequestParser::parse_headers`: walk the raw header fields in
arrival order, lowercase each name with `::tolower`, and store into the
`headers` map (`std::unordered_map`), so a duplicate name keeps the last
value.  Lookup into the resulting map is exact (`alookup`). -/
def parse_headers (hs : List (String × String)) : List (String × String) :=
  hs.foldl (fun m nv => aset m (strLower nv.1) nv.2) []

/-- The value stored for a header name: the value of the last raw header
whose lowercased name matches, i.e. the last write into the map. -/
def lastHeaderValue (hs : List (String × String)) (n : String) : Option String :=
  (hs.reverse.find? (fun p => strLower p.1 = strLower n)).map (fun p => p.2)

/-! ## Response builder (`request_parser.cpp:232-361`)

`build_response` emits into a Boost.Beast `http::response`.  Beast's
`basic_fields` keeps fields in insertion order and compares names
case-insensitively; `fields::set` removes every existing field with the same
name before storing the new one (this is the Beast-documented behaviour the
repository links against — only the header list is modelled, since the
claims observe nothing else of the response). -/

/-- Models `boost::beast::http::basic_fields::set`. -/
def fieldsSet (f : List (String × String)) (n v : String) :
    List (String × String) :=
  (f.filter (fun p => strLower p.1 ≠ strLower n)) ++ [(n, v)]

/-- Models `ResponseBuilder::ResponseData` (`request_parser.hpp:150-165`);
`cookies` is the ordered vector of `(name, full Set-Cookie value)` pairs. -/
structure ResponseDataM where
  status_code : Nat := 200
  headers : List (String × String) := []
  cookies : List (String × String) := []
  body : String := ""

/-- Models `ResponseBuilder::add_cookie` (`request_parser.cpp:329-361`):
build the full cookie string `name=value; attributes...` and append it to
the ordered cookie vector under the cookie's name. -/
def add_cookie (r : ResponseDataM) (name value path domain : String)
    (max_age : Int) (secure http_only : Bool) : ResponseDataM :=
  let cv := name ++ "=" ++ value
  let cv := if path ≠ "" then cv ++ "; Path=" ++ path else cv
  let cv := if domain ≠ "" then cv ++ "; Domain=" ++ domain else cv
  let cv := if max_age ≥ 0 then cv ++ "; Max-Age=" ++ toString max_age else cv
  let cv := if secure then cv ++ "; Secure" else cv
  let cv := if http_only then cv ++ "; HttpOnly" else cv
  { r with cookies := r.cookies ++ [(name, cv)] }

/-- Models `ResponseBuilder::build_response` (`request_parser.cpp:239-271`):
set `Server` and `Content-Length`, copy the caller headers with `set`, then
for each `(name, value)` cookie pair call
`response.set(field::set_cookie, name + "=" + value + "; Path=/")` — note
both that `set` replaces any previously emitted `Set-Cookie` field and that
`value` here is already the full cookie string built by `add_cookie`.
Returns the response's header fields in their final order. -/
def build_response (d : ResponseDataM) : List (String × String) :=
  let f : List (String × String) := []
  let f := fieldsSet f "Server" "PySpeed/1.0"
  let f := fieldsSet f "Content-Length" (toString d.body.length)
  let f := d.headers.foldl (fun f nv => fieldsSet f nv.1 nv.2) f
  let f := d.cookies.foldl
    (fun f nv => fieldsSet f "Set-Cookie" (nv.1 ++ "=" ++ nv.2 ++ "; Path=/")) f
  f

/-- The Set-Cookie fields of a built response, in emission order. -/
def setCookieFields (f : List (String × String)) : List String :=
  (f.filter (fun p => strLower p.1 = "set-cookie")).map (fun p => p.2)

/-- A response carrying two cookies, added through `add_cookie` with the
default attribute arguments (`path = "/"`, `http_only = true`). -/
def c6_data : ResponseDataM :=
  add_cookie (add_cookie {} "a" "1" "/" "" (-1) false true)
    "b" "2" "/" "" (-1) false true

/-- C6 (evidence for the code bug): with two cookies added, the built
response contains exactly one `Set-Cookie` field — Beast's `set` replaces
the field emitted for the first cookie — and its value is the second
cookie's name glued onto the full cookie string again
(`b=b=2; Path=/; HttpOnly; Path=/`), not one field per cookie in insertion
order. -/
theorem c6_only_last_cookie_survives :
    c6_data.cookies.length = 2
    ∧ setCookieFields (build_response c6_data)
        = ["b=b=2; Path=/; HttpOnly; Path=/"]
    ∧ (setCookieFields (build_response c6_data)).length ≠ 2 := by
  exact ⟨rfl, rfl, by decide⟩

/-! ## Claim C9: header lookup casing -/

theorem alookup_nil {α : Type} (k : String) :
    alookup ([] : List (String × α)) k = none := rfl

theorem alookup_cons {α : Type} (p : String × α) (m : List (String × α)) (k : String) :
    alookup (p :: m) k = if p.1 = k then some p.2 else alookup m k := by
  by_cases h : p.1 = k <;> simp [alookup, List.find?, h]

theorem alookup_aset {α : Type} (m : List (String × α)) (k : String) (v : α) (k2 : String) :
    alookup (aset m k v) k2 = if k2 = k then some v else alookup m k2 := by
  induction m with
  | nil =>
    by_cases h : k2 = k
    · subst h; simp [aset, alookup_cons]
    · have h2 : ¬ k = k2 := fun hh => h hh.symm
      simp [aset, alookup_cons, alookup_nil, h, h2]
  | cons p rest ih =>
    by_cases hp : p.1 = k
    · simp only [aset, if_pos hp]
      by_cases h : k2 = k
      · subst h; simp [alookup_cons]
      · have h2 : ¬ k = k2 := fun hh => h hh.symm
        have h3 : ¬ p.1 = k2 := fun hh => h2 (hp ▸ hh)
        rw [alookup_cons, alookup_cons, if_neg h, if_neg h2, if_neg h3]
    · simp only [aset, if_neg hp]
      rw [alookup_cons, alookup_cons, ih]
      by_cases hpk2 : p.1 = k2
      · have h2 : ¬ k2 = k := fun hh => hp (hpk2.trans hh)
        simp [hpk2, h2]
      · simp [hpk2]

/-- Lookup after folding header insertions: the last raw header whose
lowercased name equals the (already lowercased) key wins, falling back to
the accumulator. -/
theorem alookup_parse_headers_aux (hs : List (String × String))
    (m : List (String × String)) (k : String) :
    alookup (hs.foldl (fun m nv => aset m (strLower nv.1) nv.2) m) k
      = ((hs.reverse.find? (fun p => strLower p.1 = k)).map (fun p => p.2)).or
          (alookup m k) := by
  induction hs generalizing m with
  | nil => simp
  | cons nv t ih =>
    simp only [List.foldl_cons, List.reverse_cons]
    rw [ih, List.find?_append, alookup_aset]
    rcases hfind : t.reverse.find? (fun p => strLower p.1 = k) with _ | p <;>
      rw [hfind]
    · by_cases h : k = strLower nv.1
      · subst h
        simp [List.find?]
      · have h2 : ¬ strLower nv.1 = k := fun hh => h hh.symm
        simp [List.find?, h, h2]
    · simp

/-- C9 (amended): header names are lowercased on insert, so for a header
stored from any ASCII casing, looking up the lowercased form of any ASCII
casing of that name returns the stored (last-written) value; a lookup under
a non-lowercased casing is an exact map lookup and can fail
(`c9_exact_lookup_fails_on_other_casings`). -/
theorem c9_lowercased_lookup_returns_value (hs : List (String × String))
    (n1 n2 v : String) (hcase : strLower n1 = strLower n2)
    (hv : lastHeaderValue hs n2 = some v) :
    alookup (parse_headers hs) (strLower n1) = some v := by
  unfold lastHeaderValue at hv
  unfold parse_headers
  rw [alookup_parse_headers_aux, hcase, alookup_nil, hv]
  rfl

/-- Witness for C9 at a concrete instance: two casings of Content-Type are
stored in arrival order; looking up the lowercased name returns the last
value. -/
theorem c9_lowercased_lookup_returns_value_witness :
    lastHeaderValue [("Content-Type", "text/html"), ("CONTENT-TYPE", "text/plain")]
        "Content-Type" = some "text/plain"
    ∧ alookup (parse_headers
        [("Content-Type", "text/html"), ("CONTENT-TYPE", "text/plain")])
        (strLower "content-TYPE") = some "text/plain" :=
  ⟨rfl, c9_lowercased_lookup_returns_value
    [("Content-Type", "text/html"), ("CONTENT-TYPE", "text/plain")]
    "content-TYPE" "Content-Type" "text/plain" rfl rfl⟩

/-- C9 (counterexample): the stored key is the lowercased name, and the map
lookup is exact — looking the header up under the casing `Content-Type`
finds nothing, although the header was inserted under exactly that casing
and the lowercased lookup succeeds. -/
theorem c9_exact_lookup_fails_on_other_casings :
    alookup (parse_headers [("Content-Type", "text/html")]) "Content-Type" = none
    ∧ alookup (parse_headers [("Content-Type", "text/html")]) "content-type"
        = some "text/html" :=
  ⟨rfl, rfl⟩

/-! ## Static file handler: path utilities (`static_handler.cpp:607-675`) -/

/-- Split a path on `/`, dropping empty components (runs of separators act
as one); the accumulator holds the current component reversed. -/
def splitComps : List Char → List Char → List String
  | [], cur => if cur.isEmpty then [] else [String.mk cur.reverse]
  | '/' :: r, cur =>
    if cur.isEmpty then splitComps r [] else String.mk cur.reverse :: splitComps r []
  | c :: r, cur => splitComps r (c :: cur)

/-- One step of lexical normalization: drop `.`; let `..` cancel a preceding
non-`..` component, vanish at the root of an absolute path, and otherwise
accumulate; keep every other component. -/
def normStep (abs : Bool) (out : List String) (p : String) : List String :=
  if p = "." then out
  else if p = ".." then
    match out.getLast? with
    | some q => if q = ".." then out ++ [".."] else out.dropLast
    | none => if abs then out else [".."]
  else out ++ [p]

/-- Models `std::filesystem::path::lexically_normal().string()` on a POSIX
platform (libstdc++: no root-name, runs of separators collapse), following
the normalization steps of the C++ standard's [fs.path.generic]: remove dot
components, cancel a non-dot-dot filename followed by dot-dot, remove
dot-dots right after the root directory, keep a trailing separator when the
normalized path still designates a directory (the input ended in a
separator or a dot, or the last component was cancelled by a dot-dot), and
render an empty relative result as `.`. -/
def lexically_normal (s : String) : String :=
  if s = "" then "" else
  let cs := s.data
  let abs := cs.head? = some '/'
  let parts := splitComps cs []
  let trail0 := cs.getLast? = some '/'
  let out := parts.foldl (normStep abs) []
  let trailing :=
    decide (out ≠ []) &&
      (trail0 || decide (parts.getLast? = some ".") ||
        (decide (parts.getLast? = some "..") && decide (out.getLast? ≠ some "..")))
  if out.isEmpty then (if abs then "/" else ".")
  else
    (if abs then "/" else "") ++ String.intercalate "/" out ++
      (if trailing then "/" else "")

/-- Models `static_utils::normalize_path` (`static_handler.cpp:618-622`). -/
def normalize_path (path : String) : String :=
  lexically_normal path

/-- Models `static_utils::is_safe_path` (`static_handler.cpp:624-628`):
reject a path containing `..` or `//` as a substring. -/
def is_safe_path (path : String) : Bool :=
  !containsSub path.data "..".data && !containsSub path.data "//".data

/-- Models `pyspeed_compat::get_filename`: the suffix after the last `/` or
`\x5c`. -/
def get_filename (path : String) : String :=
  String.mk (path.data.foldl
    (fun acc c => if c = '/' ∨ c = '\\' then [] else acc ++ [c]) [])

/-- One step of the extension scan: a dot restarts the candidate extension. -/
def extStep (acc : Option (List Char)) (c : Char) : Option (List Char) :=
  if c = '.' then some ['.']
  else match acc with
    | some e => some (e ++ [c])
    | none => none

/-- Models `pyspeed_compat::get_extension`: the filename's suffix from its
last dot (inclusive), or empty when the filename has no dot. -/
def get_extension (path : String) : String :=
  match (get_filename path).data.foldl extStep none with
  | some e => String.mk e
  | none => ""

/-- Models `pyspeed_compat::starts_with`. -/
def starts_with (s pre : String) : Bool :=
  pre.data.isPrefixOf s.data

/-- Models `pyspeed_compat::ends_with`. -/
def ends_with (s suf : String) : Bool :=
  suf.data.isSuffixOf s.data

/-! ## Static file handler: configuration and state (`static_handler.hpp`) -/

/-- Models `StaticFileHandler::Config` (`static_handler.hpp:81-99`). -/
structure StaticCfg where
  root_directory : String := "./static"
  max_cache_size_mb : Nat := 512
  max_file_size_mb : Nat := 100
  enable_compression : Bool := true
  enable_range_requests : Bool := true
  enable_etags : Bool := true
  compression_threshold : Nat := 1024
  compression_types : List String :=
    ["text/html", "text/css", "text/javascript",
     "application/javascript", "application/json", "text/xml"]
  forbidden_extensions : List String := [".tmp", ".bak", ".log"]
  hidden_prefixes : List String := [".", "_"]

/-- The `mime_types_` table built by `initialize_mime_types`
(`static_handler.cpp:467-513`). -/
def mime_types : List (String × String) :=
  [(".html", "text/html"), (".htm", "text/html"), (".css", "text/css"),
   (".js", "application/javascript"), (".json", "application/json"),
   (".xml", "text/xml"), (".txt", "text/plain"),
   (".png", "image/png"), (".jpg", "image/jpeg"), (".jpeg", "image/jpeg"),
   (".gif", "image/gif"), (".svg", "image/svg+xml"), (".ico", "image/x-icon"),
   (".webp", "image/webp"),
   (".woff", "font/woff"), (".woff2", "font/woff2"), (".ttf", "font/ttf"),
   (".eot", "application/vnd.ms-fontobject"),
   (".mp4", "video/mp4"), (".webm", "video/webm"), (".ogg", "video/ogg"),
   (".mp3", "audio/mpeg"), (".wav", "audio/wav"), (".flac", "audio/flac"),
   (".zip", "application/zip"), (".gz", "application/gzip"),
   (".tar", "application/x-tar"),
   (".pdf", "application/pdf"), (".doc", "application/msword"),
   (".docx", "application/vnd.openxmlformats-officedocument.wordprocessingml.document")]

/-- Models `StaticFileHandler::get_mime_type` (`static_handler.cpp:334-344`). -/
def get_mime_type (file_path : String) : String :=
  match alookup mime_types (strLower (get_extension file_path)) with
  | some t => t
  | none => "application/octet-stream"

/-- The result of one `stat` of a file: its size and its last-write time
(`time_t` seconds). -/
structure FileStat where
  size : Nat
  mtime : Int

/-- The ambient effects `serve_file` consults, fixed for the duration of one
call: the filesystem (`stat`-visible regular files), whether `mmap`
succeeds on a path, `std::hash<std::string>` (implementation-defined, hence
a parameter), gzip compression (`static_utils::compress_gzip`; empty result
means failure), the mapped bytes of a file, and HTTP-date parsing
(`static_utils::parse_http_date`). -/
structure Env where
  fs : String → Option FileStat
  mapOk : String → Bool
  hashPath : String → Nat
  gzip : String → String
  contents : String → String
  parseDate : String → Int

/-- Models `StaticFileHandler::CacheEntry` (`static_handler.hpp:49-78`).
`mapped` abstracts the `mapped_data != nullptr` state of the memory
mapping. -/
structure CacheEntryM where
  file_path : String
  content_type : String
  etag : String
  last_modified : Int
  file_size : Nat
  mapped : Bool := false
  mapped_size : Nat := 0
  last_accessed : Nat := 0
  access_count : Nat := 0
  is_compressed : Bool := false
  compressed_data : String := ""

/-- The serve counters of `StaticFileHandler::Stats`
(`static_handler.hpp:148-157`); the wall-clock counter
`total_serve_time_us` is not modelled. -/
structure StatsM where
  files_served : Nat := 0
  bytes_served : Nat := 0
  cache_hits : Nat := 0
  cache_misses : Nat := 0
  files_compressed : Nat := 0
  range_requests : Nat := 0
  not_modified_responses : Nat := 0

/-- The mutable handler state: the cache index (`cache_`, an association
list path → entry), `current_cache_size_`, the statistics, and a ghost
counter of `compress_content` invocations (not present in the C++; it
makes "the compressed form is computed at most once" observable). -/
structure HState where
  cache : List (String × CacheEntryM) := []
  current_cache_size : Nat := 0
  stats : StatsM := {}
  gzip_calls : Nat := 0

/-- Models `ServeResult::Status` (`static_handler.hpp:106-113`). -/
inductive Status where
  | SUCCESS | NOT_FOUND | FORBIDDEN | NOT_MODIFIED
  | RANGE_NOT_SATISFIABLE | INTERNAL_ERROR
  deriving DecidableEq

/-- The `ServeResult::data` pointer: null, a pointer into the mapping of a
file at a byte offset, or a pointer into the response's own
`string_data` buffer.  Pointer arithmetic on a null mapping
(`nullptr + offset`, undefined behaviour in C++) is modelled as null. -/
inductive DataPtr where
  | null
  | mapped (path : String) (offset : Nat)
  | owned (s : String)
  deriving DecidableEq

/-- Models `StaticFileHandler::ServeResult` (`static_handler.hpp:105-132`). -/
structure ServeResultM where
  status : Status := .SUCCESS
  content_type : String := ""
  etag : String := ""
  last_modified : Int := 0
  content_length : Nat := 0
  data : DataPtr := .null
  string_data : String := ""
  is_partial_content : Bool := false
  range_start : Nat := 0
  range_end : Nat := 0
  total_size : Nat := 0

/-! ## Static file handler: range parsing (`static_handler.cpp:515-561`) -/

/-- Split at the first occurrence of a character (`std::string::find` plus
the two `substr` calls): `some (before, after)` or `none` when absent. -/
def splitFirstChar (c : Char) : List Char → Option (List Char × List Char)
  | [] => none
  | x :: rest =>
    if x = c then some ([], rest)
    else
      match splitFirstChar c rest with
      | some (pre, post) => some (x :: pre, post)
      | none => none

/-- Models `std::stoull` (base 10): skip leading spaces, optional sign,
then a nonempty digit run (trailing characters are ignored).  No digits
throws `invalid_argument` and a magnitude beyond `ULLONG_MAX` throws
`out_of_range` — both modelled as `none`, matching the `catch (...)` in
`parse_range_header`; a minus sign wraps in unsigned arithmetic. -/
def stoullM (cs : List Char) : Option Nat :=
  let cs := cs.dropWhile (fun c => c = ' ' || c = '\t' || c = '\n' ||
    c = '\x0b' || c = '\x0c' || c = '\r')
  let signed : Bool × List Char := match cs with
    | c :: r => if c = '+' then (false, r) else if c = '-' then (true, r) else (false, c :: r)
    | [] => (false, [])
  let neg := signed.1
  let ds := signed.2.takeWhile is_digit
  if ds.isEmpty then none
  else
    let v := digitsVal ds
    if v ≥ 2 ^ 64 then none
    else some (if neg then (2 ^ 64 - v % 2 ^ 64) % 2 ^ 64 else v)

/-- `size_t` subtraction: `a - b` modulo `2^64` (for `a, b < 2^64`). -/
def sub64 (a b : Nat) : Nat :=
  (a + 2 ^ 64 - b) % 2 ^ 64

/-- Models `StaticFileHandler::Range` (`static_handler.hpp:210-214`); the
source's `end` field is `stop` here (`end` is reserved in Lean).  On the
invalid outcome the C++ leaves whatever was assigned before the failure in
`start`/`end`; the model resets them to the initializer values, which no
property observes. -/
structure RangeM where
  start : Nat := 0
  stop : Nat := 0
  is_valid : Bool := false

/-- Models `StaticFileHandler::parse_range_header`
(`static_handler.cpp:515-561`): strip `bytes=`, split at the first dash,
parse the two sides with `stoull` (a thrown exception yields the invalid
range), resolve suffix (`-k`) and prefix (`a-`) forms against `file_size`
(note `file_size - 1` is `size_t` arithmetic), and validate
`start < file_size && end < file_size && start <= end`. -/
def parse_range_header (range_header : String) (file_size : Nat) : RangeM :=
  if !starts_with range_header "bytes=" then {}
  else
    let range_spec := range_header.data.drop 6
    match splitFirstChar '-' range_spec with
    | none => {}
    | some (start_str, end_str) =>
      if start_str.isEmpty && end_str.isEmpty then {}
      else if start_str.isEmpty then
        match stoullM end_str with
        | none => {}
        | some suffix_length =>
          let start := if file_size > suffix_length then file_size - suffix_length else 0
          let stop := sub64 file_size 1
          { start := start, stop := stop,
            is_valid := decide (start < file_size) && decide (stop < file_size) &&
              decide (start ≤ stop) }
      else if end_str.isEmpty then
        match stoullM start_str with
        | none => {}
        | some a =>
          let stop := sub64 file_size 1
          { start := a, stop := stop,
            is_valid := decide (a < file_size) && decide (stop < file_size) &&
              decide (a ≤ stop) }
      else
        match stoullM start_str, stoullM end_str with
        | some a, some b =>
          { start := a, stop := b,
            is_valid := decide (a < file_size) && decide (b < file_size) &&
              decide (a ≤ b) }
        | _, _ => {}

/-! ## Static file handler: serve pipeline (`static_handler.cpp:145-465`) -/

/-- Models `StaticFileHandler::generate_etag` (`static_handler.cpp:346-353`):
`"<hash(path) in lowercase hex>-<mtime seconds>"`, quoted. -/
def generate_etag (env : Env) (file_path : String) (last_modified : Int) : String :=
  "\"" ++ String.mk (Nat.toDigits 16 (env.hashPath file_path)) ++ "-" ++
    toString last_modified ++ "\""

/-- Models `StaticFileHandler::is_file_forbidden`
(`static_handler.cpp:355-373`): a forbidden extension anywhere at the end
of the path, or a hidden prefix at the start of the filename. -/
def is_file_forbidden (cfg : StaticCfg) (file_path : String) : Bool :=
  cfg.forbidden_extensions.any (fun ext => ends_with file_path ext) ||
    cfg.hidden_prefixes.any (fun pre => starts_with (get_filename file_path) pre)

/-- Models `StaticFileHandler::should_compress` (`static_handler.cpp:375-387`):
compression enabled, size at or above the threshold, and the content type
contains one of the configured compressible types as a substring. -/
def should_compress (cfg : StaticCfg) (content_type : String) (file_size : Nat) : Bool :=
  if !cfg.enable_compression || file_size < cfg.compression_threshold then false
  else cfg.compression_types.any (fun t => containsSub content_type.data t.data)

/-- Models `StaticFileHandler::accepts_gzip` (`static_handler.cpp:567-573`). -/
def accepts_gzip (headers : List (String × String)) : Bool :=
  match alookup headers "accept-encoding" with
  | some v => containsSub v.data "gzip".data
  | none => false

/-- The `local_root + relative_path` value `resolve_file_path` builds before
normalizing (`static_handler.cpp:296-322`): the registered route with the
longest prefix match of the request path wins (ties cannot occur among
distinct prefixes of equal length), the default route `/` with the
configured root directory is used when none matches, and an empty or `/`
relative remainder becomes `/index.html`. -/
def joined_path (cfg : StaticCfg) (routes : List (String × String))
    (request_path : String) : String :=
  let best := routes.foldl
    (fun (acc : String × String) rt =>
      if decide (String.mk (request_path.data.take rt.1.length) = rt.1) &&
          decide (rt.1.length > acc.1.length) then rt else acc)
    ("", "")
  let lm := if best.1 = "" then "/" else best.1
  let local_root := if best.1 = "" then cfg.root_directory else best.2
  let relative := String.mk (request_path.data.drop lm.length)
  let relative := if relative = "" ∨ relative = "/" then "/index.html" else relative
  local_root ++ relative

/-- Models `StaticFileHandler::resolve_file_path`
(`static_handler.cpp:296-332`): join, normalize, and signal a path-traversal
attempt by returning the empty string. -/
def resolve_file_path (cfg : StaticCfg) (routes : List (String × String))
    (request_path : String) : String :=
  let file_path := normalize_path (joined_path cfg routes request_path)
  if is_safe_path file_path then file_path else ""

/-- Models `CacheEntry::is_valid` (`static_handler.cpp:127-129`): the
mapping exists and the file still exists on disk. -/
def entry_is_valid (env : Env) (e : CacheEntryM) : Bool :=
  e.mapped && (env.fs e.file_path).isSome

/-- Models `StaticFileHandler::get_cached_file`
(`static_handler.cpp:389-425`): a present, valid entry is returned; a
present, stale entry is erased and its size subtracted; otherwise nothing. -/
def get_cached_file (env : Env) (st : HState) (file_path : String) :
    Option CacheEntryM × HState :=
  match alookup st.cache file_path with
  | some e =>
    if entry_is_valid env e then (some e, st)
    else (none,
      { st with cache := aerase st.cache file_path,
                current_cache_size := st.current_cache_size - e.file_size })
  | none => (none, st)

/-- The eviction loop of `StaticFileHandler::evict_lru_entries`
(`static_handler.cpp:454-464`): walk the sorted snapshot, erase each entry
and subtract its size, stop once at least `bytes_needed` bytes are freed.
(The snapshot always lists live keys; the `none` fallback of the lookup is
unreachable from `evict_lru_entries`.) -/
def evictLoop (bytes_needed : Nat) :
    List (Nat × String) → HState → Nat → HState
  | [], st, _ => st
  | (_, p) :: rest, st, freed =>
    let sz := match alookup st.cache p with
      | some e => e.file_size
      | none => 0
    let st := { st with cache := aerase st.cache p,
                        current_cache_size := st.current_cache_size - sz }
    let freed := freed + sz
    if freed ≥ bytes_needed then st else evictLoop bytes_needed rest st freed

/-- `std::pair` lexicographic implementation of less-than used by
`std::sort` on `(last_accessed, path)` snapshots. -/
def pairLe (a b : Nat × String) : Bool :=
  decide (a.1 < b.1) || (decide (a.1 = b.1) && !decide (b.2 < a.2))

/-- Ordered insertion with respect to a boolean comparator. -/
def insertLe {α : Type} (le : α → α → Bool) (x : α) : List α → List α
  | [] => [x]
  | y :: ys => if le x y then x :: y :: ys else y :: insertLe le x ys

/-- Insertion sort with a boolean comparator: the sort `std::sort` performs
on the eviction snapshot (only the comparator and the resulting order
matter to the model). -/
def sortLe {α : Type} (le : α → α → Bool) : List α → List α
  | [] => []
  | x :: xs => insertLe le x (sortLe le xs)

/-- Models `StaticFileHandler::evict_lru_entries`
(`static_handler.cpp:444-465`): snapshot `(last_accessed, path)` pairs,
sort ascending, evict in that order. -/
def evict_lru_entries (st : HState) (bytes_needed : Nat) : HState :=
  let entries := sortLe pairLe (st.cache.map (fun pe => (pe.2.last_accessed, pe.1)))
  evictLoop bytes_needed entries st 0

/-- Models `StaticFileHandler::cache_file` (`static_handler.cpp:427-442`):
evict first when the insert would push `current_cache_size_` past
`max_cache_bytes`, then store the entry and add its size. -/
def cache_file (cfg : StaticCfg) (st : HState) (file_path : String)
    (entry : CacheEntryM) : HState :=
  let max_cache_bytes := cfg.max_cache_size_mb * 1024 * 1024
  let st :=
    if st.current_cache_size + entry.file_size > max_cache_bytes then
      evict_lru_entries st entry.file_size
    else st
  { st with cache := aset st.cache file_path entry,
            current_cache_size := st.current_cache_size + entry.file_size }

/-- The pointer `serve_file` stores in `result.data` for an entry and byte
offset: `(const char*)entry->mapped_data + offset`.  On an unmapped entry
`mapped_data` is null (`static_handler.hpp:57`) and the result is a null
(or null-based, for ranges) pointer. -/
def entryData (e : CacheEntryM) (offset : Nat) : DataPtr :=
  if e.mapped then .mapped e.file_path offset else .null

/-- The bytes `compress_content` reads from `result.data`
(`static_handler.cpp:262`): the first `content_length` bytes behind the
pointer.  Reading through a null pointer is undefined behaviour in the C++
and unreachable in the properties below. -/
def readData (env : Env) (d : DataPtr) (len : Nat) : String :=
  match d with
  | .null => ""
  | .mapped p off => String.mk (((env.contents p).data.drop off).take len)
  | .owned s => String.mk (s.data.take len)

/-- The cache entry is held through a `shared_ptr`, so field mutations made
by `serve_file` are visible through the cache index; the functional model
commits the mutated entry back here (a no-op when the entry was never in
the index, as for over-sized files). -/
def writeback (st : HState) (file_path : String) (e : CacheEntryM) : HState :=
  if (alookup st.cache file_path).isSome then
    { st with cache := aset st.cache file_path e }
  else st

/-- Compression, access-stamp, shared-entry commit and the trailing
statistics of `serve_file` (`static_handler.cpp:250-293`): fill the
response metadata from the entry, lazily gzip a full (non-range) response
of a compressible type when the client accepts gzip — computing the
compressed buffer only when the entry holds none, and counting
`files_compressed` whenever a compressed body is returned — then stamp
`last_accessed`/`access_count`, mark SUCCESS, and update
`files_served`/`bytes_served`. -/
def serve_finish (cfg : StaticCfg) (env : Env) (now : Nat) (st : HState)
    (file_path : String) (headers : List (String × String))
    (last_modified : Int) (etag : String) (entry : CacheEntryM)
    (result0 : ServeResultM) : ServeResultM × HState :=
  let result := { result0 with
    content_type := entry.content_type, etag := etag,
    last_modified := last_modified }
  let should_compress_file := should_compress cfg result.content_type result.content_length
  let client_accepts_gzip := accepts_gzip headers
  let step :=
    if should_compress_file && client_accepts_gzip && !result.is_partial_content then
      let step2 :=
        if entry.compressed_data = "" then
          ({ entry with
              compressed_data := env.gzip (readData env result.data result.content_length),
              is_compressed := true },
           { st with gzip_calls := st.gzip_calls + 1 })
        else (entry, st)
      let entry := step2.1
      let st := step2.2
      if entry.compressed_data ≠ "" then
        (entry,
         { result with
            string_data := entry.compressed_data,
            data := .owned entry.compressed_data,
            content_length := entry.compressed_data.length,
            content_type := result.content_type ++ "; charset=utf-8" },
         { st with stats := { st.stats with
            files_compressed := st.stats.files_compressed + 1 } })
      else (entry, result, st)
    else (entry, result, st)
  let entry := { step.1 with last_accessed := now, access_count := step.1.access_count + 1 }
  let result := step.2.1
  let st := step.2.2
  let result := { result with status := .SUCCESS }
  let st := writeback st file_path entry
  let st := { st with stats := { st.stats with
    files_served := st.stats.files_served + 1,
    bytes_served := st.stats.bytes_served + result.content_length } }
  (result, st)

/-- The range step of `serve_file` (`static_handler.cpp:229-248`): with a
`Range` header and range requests enabled, a valid parse produces a partial
response into the mapping at the range's start (and counts the range
request), an invalid parse returns RANGE_NOT_SATISFIABLE at once; without
a range the full file is served from the mapping. -/
def serve_entry (cfg : StaticCfg) (env : Env) (now : Nat) (st : HState)
    (file_path : String) (headers : List (String × String)) (file_size : Nat)
    (last_modified : Int) (etag : String) (entry : CacheEntryM) :
    ServeResultM × HState :=
  match alookup headers "range", cfg.enable_range_requests with
  | some range_header, true =>
    let range := parse_range_header range_header file_size
    if range.is_valid then
      let result : ServeResultM := {
        is_partial_content := true,
        range_start := range.start,
        range_end := range.stop,
        total_size := file_size,
        content_length := range.stop - range.start + 1,
        data := entryData entry range.start }
      let st := { st with stats := { st.stats with
        range_requests := st.stats.range_requests + 1 } }
      serve_finish cfg env now st file_path headers last_modified etag entry result
    else ({ status := .RANGE_NOT_SATISFIABLE }, st)
  | _, _ =>
    let result : ServeResultM := {
      content_length := file_size,
      data := entryData entry 0 }
    serve_finish cfg env now st file_path headers last_modified etag entry result

/-- The cache lookup-or-load step of `serve_file`
(`static_handler.cpp:202-227`): on a miss build a fresh entry; a file within
`max_file_size` is mapped and inserted (INTERNAL_ERROR when mapping fails),
an over-sized file is *not* mapped and not cached — its entry keeps a null
`mapped_data` — and `cache_misses` is counted either way; a hit counts
`cache_hits`. -/
def serve_file_body (cfg : StaticCfg) (env : Env) (now : Nat) (st0 : HState)
    (file_path : String) (headers : List (String × String)) (file_size : Nat)
    (last_modified : Int) (etag : String) : ServeResultM × HState :=
  let looked := get_cached_file env st0 file_path
  let st1 := looked.2
  match looked.1 with
  | none =>
    let entry : CacheEntryM := {
      file_path := file_path,
      content_type := get_mime_type file_path,
      etag := etag,
      last_modified := last_modified,
      file_size := file_size }
    if file_size ≤ cfg.max_file_size_mb * 1024 * 1024 then
      if env.mapOk file_path then
        let entry := { entry with mapped := true, mapped_size := file_size }
        let st2 := cache_file cfg st1 file_path entry
        let st2 := { st2 with stats := { st2.stats with
          cache_misses := st2.stats.cache_misses + 1 } }
        serve_entry cfg env now st2 file_path headers file_size last_modified etag entry
      else ({ status := .INTERNAL_ERROR }, st1)
    else
      let st2 := { st1 with stats := { st1.stats with
        cache_misses := st1.stats.cache_misses + 1 } }
      serve_entry cfg env now st2 file_path headers file_size last_modified etag entry
  | some entry =>
    let st2 := { st1 with stats := { st1.stats with
      cache_hits := st1.stats.cache_hits + 1 } }
    serve_entry cfg env now st2 file_path headers file_size last_modified etag entry

/-- Models `StaticFileHandler::serve_file` (`static_handler.cpp:145-294`):
resolve the request path (empty resolution — a traversal attempt — yields
NOT_FOUND), reject forbidden files, stat the file (missing yields
NOT_FOUND), revalidate against `If-None-Match` (exact ETag match) and
`If-Modified-Since` (file not newer than the parsed date) with
NOT_MODIFIED, then serve through the cache.  The early returns leave the
function before the trailing `files_served`/`bytes_served` update, exactly
as the `return result` statements inside the C++ `try` block do. -/
def serve_file (cfg : StaticCfg) (routes : List (String × String)) (env : Env)
    (now : Nat) (st : HState) (request_path : String)
    (headers : List (String × String)) : ServeResultM × HState :=
  let file_path := resolve_file_path cfg routes request_path
  if file_path = "" then ({ status := .NOT_FOUND }, st)
  else if is_file_forbidden cfg file_path then ({ status := .FORBIDDEN }, st)
  else
    match env.fs file_path with
    | none => ({ status := .NOT_FOUND }, st)
    | some fstat =>
      let last_modified := fstat.mtime
      let file_size := fstat.size
      let etag := generate_etag env file_path last_modified
      if alookup headers "if-none-match" = some etag then
        ({ status := .NOT_MODIFIED, etag := etag, last_modified := last_modified },
         { st with stats := { st.stats with
            not_modified_responses := st.stats.not_modified_responses + 1 } })
      else
        let ims_hit :=
          match alookup headers "if-modified-since" with
          | some ims => decide (last_modified ≤ env.parseDate ims)
          | none => false
        if ims_hit then
          ({ status := .NOT_MODIFIED, etag := etag, last_modified := last_modified },
           { st with stats := { st.stats with
              not_modified_responses := st.stats.not_modified_responses + 1 } })
        else
          serve_file_body cfg env now st file_path headers file_size last_modified etag

/-! ## Claim C1: path traversal -/

/-- C1 (amended): whenever the normalized joined path still contains `..` or
`//` (so `is_safe_path` rejects it), `resolve_file_path` returns the empty
string and `serve_file` answers NOT_FOUND — not FORBIDDEN — leaving the
handler state untouched. -/
theorem c1_traversal_yields_not_found (cfg : StaticCfg)
    (routes : List (String × String)) (env : Env) (now : Nat) (st : HState)
    (request_path : String) (headers : List (String × String))
    (h : is_safe_path (normalize_path (joined_path cfg routes request_path)) = false) :
    (serve_file cfg routes env now st request_path headers).1.status = .NOT_FOUND
    ∧ (serve_file cfg routes env now st request_path headers).2 = st := by
  unfold serve_file resolve_file_path
  simp only [h, Bool.false_eq_true, if_false, if_pos rfl]
  exact ⟨rfl, rfl⟩

/-- A filesystem with no files and trivial ambient effects. -/
def envNone : Env :=
  ⟨fun _ => none, fun _ => true, fun _ => 0, fun _ => "", fun _ => "", fun _ => 0⟩

/-- Witness for C1 (amended) at the request `/c/../../x` under the default
configuration: the joined path normalizes to `../x`, which is unsafe, and
`serve_file` answers NOT_FOUND. -/
theorem c1_traversal_yields_not_found_witness :
    is_safe_path (normalize_path (joined_path {} [] "/c/../../x")) = false
    ∧ (serve_file {} [] envNone 0 {} "/c/../../x" []).1.status = .NOT_FOUND :=
  ⟨rfl, (c1_traversal_yields_not_found {} [] envNone 0 {} "/c/../../x" [] rfl).1⟩

/-- C1 (counterexample): for the request path `/c/../../x` the normalized
joined path is `../x` — it contains `..`, so the claim asserts FORBIDDEN —
yet `serve_file` returns NOT_FOUND (the traversal guard signals through an
empty resolved path, which `serve_file` maps to NOT_FOUND). -/
theorem c1_forbidden_claim_counterexample :
    normalize_path (joined_path {} [] "/c/../../x") = "../x"
    ∧ containsSub (normalize_path (joined_path {} [] "/c/../../x")).data "..".data = true
    ∧ (serve_file {} [] envNone 0 {} "/c/../../x" []).1.status = .NOT_FOUND
    ∧ Status.NOT_FOUND ≠ Status.FORBIDDEN :=
  ⟨rfl, rfl, rfl, by decide⟩

/-! ## Claim C3: over-sized files -/

/-- A filesystem holding one over-sized file (one byte past the default
100 MiB `max_file_size`). -/
def c3env : Env :=
  ⟨fun p => if p = "staticbig.bin" then some ⟨104857601, 0⟩ else none,
   fun _ => true, fun _ => 0, fun _ => "", fun _ => "", fun _ => 0⟩

/-- C3 (evidence for the code bug): serving an existing, non-forbidden file
one byte past `max_file_size` inserts nothing into the cache and counts a
miss — as the claim says — and returns SUCCESS with the file's length, but
its `data` pointer is null: the too-large branch of `serve_file` never
calls `map_file`, so no mapping is created for the request and the entry's
`mapped_data` stays `nullptr` (`static_handler.cpp:221-224,245-248`). -/
theorem c3_oversized_file_served_with_null_data :
    (serve_file {} [] c3env 0 {} "/big.bin" []).1.status = .SUCCESS
    ∧ (serve_file {} [] c3env 0 {} "/big.bin" []).1.content_length = 104857601
    ∧ (serve_file {} [] c3env 0 {} "/big.bin" []).1.data = .null
    ∧ (serve_file {} [] c3env 0 {} "/big.bin" []).2.cache = []
    ∧ (serve_file {} [] c3env 0 {} "/big.bin" []).2.stats.cache_misses = 1 :=
  ⟨rfl, rfl, rfl, rfl, rfl⟩

/-! ## Reaching the serve pipeline: plumbing lemmas -/

/-- When the path resolves, is not forbidden, the file exists, and neither
conditional header fires, `serve_file` reduces to `serve_file_body`. -/
theorem serve_file_reaches_body (cfg : StaticCfg) (routes : List (String × String))
    (env : Env) (now : Nat) (st : HState) (request_path fp : String)
    (headers : List (String × String)) (N : Nat) (mt : Int)
    (hresolve : resolve_file_path cfg routes request_path = fp)
    (hfp : fp ≠ "")
    (hforb : is_file_forbidden cfg fp = false)
    (hfs : env.fs fp = some ⟨N, mt⟩)
    (hinm : alookup headers "if-none-match" = none)
    (hims : alookup headers "if-modified-since" = none) :
    serve_file cfg routes env now st request_path headers
      = serve_file_body cfg env now st fp headers N mt (generate_etag env fp mt) := by
  simp only [serve_file, hresolve, if_neg hfp, hforb, Bool.false_eq_true, if_false,
    hfs, hinm, hims]
  simp

/-- A valid cache hit sends `serve_file_body` to `serve_entry` with the hit
counted. -/
theorem serve_body_hit (cfg : StaticCfg) (env : Env) (now : Nat) (st : HState)
    (fp : String) (headers : List (String × String)) (N : Nat) (mt : Int)
    (etag : String) (e : CacheEntryM)
    (hcache : alookup st.cache fp = some e)
    (hvalid : entry_is_valid env e = true) :
    serve_file_body cfg env now st fp headers N mt etag
      = serve_entry cfg env now
          { st with stats := { st.stats with cache_hits := st.stats.cache_hits + 1 } }
          fp headers N mt etag e := by
  simp only [serve_file_body, get_cached_file, hcache, hvalid, if_true]

/-! ## Claim C8: lazy compression and the files_compressed counter -/

/-- C8 (amended): for a cached, mapped entry served as a full (non-range)
compression-eligible gzip response, the compressed form is computed only
when the entry holds none — an entry with a non-empty compressed buffer is
served from that buffer with no new `compress_content` call — but
`stats_.files_compressed` is incremented on *every* serve that returns the
compressed body, not only on the serve that computed it
(`static_handler.cpp:259-272`). -/
theorem c8_compression_once_counter_every_serve (cfg : StaticCfg)
    (routes : List (String × String)) (env : Env) (now : Nat) (st : HState)
    (request_path fp : String) (headers : List (String × String)) (N : Nat)
    (mt : Int) (e : CacheEntryM)
    (hresolve : resolve_file_path cfg routes request_path = fp)
    (hfp : fp ≠ "")
    (hforb : is_file_forbidden cfg fp = false)
    (hfs : env.fs fp = some ⟨N, mt⟩)
    (hinm : alookup headers "if-none-match" = none)
    (hims : alookup headers "if-modified-since" = none)
    (hnorange : alookup headers "range" = none)
    (hcache : alookup st.cache fp = some e)
    (hpath : e.file_path = fp)
    (hmapped : e.mapped = true)
    (hshould : should_compress cfg e.content_type N = true)
    (hacc : accepts_gzip headers = true) :
    (e.compressed_data ≠ "" →
      (serve_file cfg routes env now st request_path headers).2.gzip_calls = st.gzip_calls
      ∧ (serve_file cfg routes env now st request_path headers).1.string_data = e.compressed_data
      ∧ (serve_file cfg routes env now st request_path headers).1.data = .owned e.compressed_data
      ∧ (serve_file cfg routes env now st request_path headers).1.content_length
          = e.compressed_data.length
      ∧ (serve_file cfg routes env now st request_path headers).2.stats.files_compressed
          = st.stats.files_compressed + 1
      ∧ (alookup (serve_file cfg routes env now st request_path headers).2.cache fp).map
          (fun e2 => e2.compressed_data) = some e.compressed_data)
    ∧ (e.compressed_data = "" →
      (serve_file cfg routes env now st request_path headers).2.gzip_calls = st.gzip_calls + 1
      ∧ (alookup (serve_file cfg routes env now st request_path headers).2.cache fp).map
          (fun e2 => e2.compressed_data)
          = some (env.gzip (readData env (.mapped fp 0) N))) := by
  have hvalid : entry_is_valid env e = true := by
    simp [entry_is_valid, hpath, hfs, hmapped]
  rw [serve_file_reaches_body cfg routes env now st request_path fp headers N mt
      hresolve hfp hforb hfs hinm hims,
    serve_body_hit cfg env now st fp headers N mt _ e hcache hvalid]
  constructor
  · intro hc
    simp only [serve_entry, hnorange, serve_finish, hshould, hacc, entryData, hmapped,
      hpath, if_true, Bool.true_and, Bool.and_true, Bool.not_false, if_neg hc,
      Bool.and_self, writeback, hcache, Option.isSome_some, alookup_aset]
    simp [hcache, alookup_aset, hc]
  · intro hc
    simp only [serve_entry, hnorange, serve_finish, hshould, hacc, entryData, hmapped,
      hpath, if_true, Bool.true_and, Bool.and_true, Bool.not_false, if_pos hc,
      Bool.and_self, writeback, hcache, Option.isSome_some, alookup_aset]
    by_cases hg : env.gzip (readData env (DataPtr.mapped fp 0) N) = "" <;>
      simp [hcache, alookup_aset, hg]

/-- A filesystem with one 2 KiB HTML page; gzip always produces `GZDATA`. -/
def c8env : Env :=
  ⟨fun p => if p = "staticpage.html" then some ⟨2048, 5⟩ else none,
   fun _ => true, fun _ => 7, fun _ => "GZDATA", fun _ => "HTMLBYTES", fun _ => 0⟩

/-- The request headers of the gzip scenario. -/
def c8_headers : List (String × String) := [("accept-encoding", "gzip")]

/-- The cached entry after the first gzip serve of the scenario. -/
def c8we : CacheEntryM :=
  { file_path := "staticpage.html", content_type := "text/html", etag := "\"7-5\""
    last_modified := 5, file_size := 2048, mapped := true, mapped_size := 2048
    compressed_data := "GZ" }

/-- The handler state holding `c8we`. -/
def c8wst : HState :=
  { cache := [("staticpage.html", c8we)], current_cache_size := 2048 }

/-- Witness for C8 (amended) at a concrete instance: serving a cached entry
that already holds compressed bytes performs no new compression, returns
the stored buffer, and still increments `files_compressed`. -/
theorem c8_compression_once_counter_every_serve_witness :
    ("GZ" : String) ≠ ""
    ∧ ((serve_file {} [] c8env 9 c8wst "/page.html" c8_headers).2.gzip_calls
          = c8wst.gzip_calls
      ∧ (serve_file {} [] c8env 9 c8wst "/page.html" c8_headers).1.string_data
          = c8we.compressed_data
      ∧ (serve_file {} [] c8env 9 c8wst "/page.html" c8_headers).1.data
          = .owned c8we.compressed_data
      ∧ (serve_file {} [] c8env 9 c8wst "/page.html" c8_headers).1.content_length
          = c8we.compressed_data.length
      ∧ (serve_file {} [] c8env 9 c8wst "/page.html" c8_headers).2.stats.files_compressed
          = c8wst.stats.files_compressed + 1
      ∧ (alookup (serve_file {} [] c8env 9 c8wst "/page.html" c8_headers).2.cache
            "staticpage.html").map (fun e2 => e2.compressed_data)
          = some c8we.compressed_data) :=
  ⟨by decide,
   (c8_compression_once_counter_every_serve {} [] c8env 9 c8wst "/page.html"
      "staticpage.html" c8_headers 2048 5 c8we rfl (by decide) rfl rfl rfl rfl rfl
      rfl rfl rfl rfl rfl).1 (by decide)⟩

/-- The handler state after the first gzip serve of the scenario, starting
from an empty cache. -/
def c8_run1 : HState := (serve_file {} [] c8env 1 {} "/page.html" c8_headers).2

/-- The handler state after serving the same page a second time. -/
def c8_run2 : HState := (serve_file {} [] c8env 2 c8_run1 "/page.html" c8_headers).2

/-- C8 (counterexample): over two gzip serves of the same page the
compression runs once (the ghost `gzip_calls` stays at 1 and the stored
buffer is the one computed on the first serve), but `files_compressed`
reaches 2 — the second serve of the already-compressed entry increments it
again, where the claim requires it to stay at 1. -/
theorem c8_counter_increments_on_reuse :
    c8_run1.stats.files_compressed = 1
    ∧ c8_run1.gzip_calls = 1
    ∧ (alookup c8_run1.cache "staticpage.html").map (fun e => e.compressed_data)
        = some "GZDATA"
    ∧ c8_run2.stats.files_compressed = 2
    ∧ c8_run2.gzip_calls = 1
    ∧ (2 : Nat) ≠ 1 :=
  ⟨rfl, rfl, rfl, rfl, rfl, by decide⟩

/-! ## Claim C7: range requests -/

/-- Decimal numeral of a natural number (the client-side rendering of the
`<start>`, `<end>` and `<suffix>` numerals of a Range header). -/
def natDecimal (n : Nat) : List Char :=
  if n = 0 then ['0'] else ((Nat.digits 10 n).map Nat.digitChar).reverse

theorem digitChar_val {d : Nat} (h : d < 10) : (Nat.digitChar d).toNat - 48 = d := by
  interval_cases d <;> rfl

theorem is_digit_digitChar {d : Nat} (h : d < 10) : is_digit (Nat.digitChar d) = true := by
  interval_cases d <;> rfl

theorem natDecimal_all_digits (n : Nat) : ∀ c ∈ natDecimal n, is_digit c = true := by
  intro c hc
  unfold natDecimal at hc
  by_cases h : n = 0
  · simp [h] at hc; subst hc; rfl
  · simp only [h, if_false, List.mem_reverse, List.mem_map] at hc
    obtain ⟨d, hd, rfl⟩ := hc
    exact is_digit_digitChar (Nat.digits_lt_base (by norm_num) hd)

theorem natDecimal_ne_nil (n : Nat) : natDecimal n ≠ [] := by
  unfold natDecimal
  by_cases h : n = 0
  · simp [h]
  · simp [h, Nat.digits_ne_nil_iff_ne_zero]

theorem foldr_digits_val (L : List Nat) (h : ∀ d ∈ L, d < 10) :
    List.foldr (fun c a => a * 10 + (c.toNat - 48)) 0 (L.map Nat.digitChar)
      = Nat.ofDigits 10 L := by
  induction L with
  | nil => rfl
  | cons d rest ih =>
    simp only [List.map_cons, List.foldr_cons, Nat.ofDigits_cons,
      ih (fun x hx => h x (List.mem_cons_of_mem d hx)),
      digitChar_val (h d (List.mem_cons_self d rest))]
    omega

theorem digitsVal_natDecimal (n : Nat) : digitsVal (natDecimal n) = n := by
  unfold natDecimal digitsVal
  by_cases h : n = 0
  · simp [h]
  · rw [if_neg h, List.foldl_reverse]
    have := foldr_digits_val (Nat.digits 10 n)
      (fun d hd => Nat.digits_lt_base (by norm_num) hd)
    simpa [Nat.ofDigits_digits] using this

theorem isPrefixOf_self_append (l t : List Char) : l.isPrefixOf (l ++ t) = true := by
  induction l with
  | nil => simp [List.isPrefixOf]
  | cons c rest ih => simp [List.isPrefixOf, ih]

theorem takeWhile_all {p : Char → Bool} {l : List Char} (h : ∀ c ∈ l, p c = true) :
    l.takeWhile p = l := by
  induction l with
  | nil => rfl
  | cons c rest ih =>
    rw [List.takeWhile_cons, h c (List.mem_cons_self c rest)]
    simp [ih (fun x hx => h x (List.mem_cons_of_mem c hx))]

theorem splitFirstChar_spec (c : Char) (pre post : List Char) (h : c ∉ pre) :
    splitFirstChar c (pre ++ c :: post) = some (pre, post) := by
  induction pre with
  | nil => simp [splitFirstChar]
  | cons x rest ih =>
    have hx : ¬ x = c := fun hh => h (hh ▸ List.mem_cons_self x rest)
    have ih2 := ih (fun hm => h (List.mem_cons_of_mem x hm))
    simp only [List.cons_append, splitFirstChar, if_neg hx, List.append_eq]
    rw [ih2]

/-- `stoull` on a pure (nonempty) digit run: its decimal value when it fits
`unsigned long long`, an `out_of_range` throw (`none`) otherwise. -/
theorem stoullM_digits (ds : List Char) (hne : ds ≠ [])
    (hd : ∀ c ∈ ds, is_digit c = true) :
    stoullM ds = if digitsVal ds ≥ 2 ^ 64 then none else some (digitsVal ds) := by
  rcases ds with _ | ⟨d, rest⟩
  · exact absurd rfl hne
  have hdd : is_digit d = true := hd d (List.mem_cons_self d rest)
  have hne2 : ∀ (c0 : Char), is_digit c0 = false → ¬ d = c0 := by
    intro c0 hc0 hdc
    rw [hdc, hc0] at hdd
    exact Bool.false_ne_true hdd
  have hws : (decide (d = ' ') || decide (d = '\t') || decide (d = '\n') ||
      decide (d = '\x0b') || decide (d = '\x0c') || decide (d = '\r')) = false := by
    simp only [Bool.or_eq_false_iff, decide_eq_false_iff_not]
    exact ⟨⟨⟨⟨⟨hne2 ' ' (by decide), hne2 '\t' (by decide)⟩, hne2 '\n' (by decide)⟩,
      hne2 '\x0b' (by decide)⟩, hne2 '\x0c' (by decide)⟩, hne2 '\r' (by decide)⟩
  have hdrop : List.dropWhile (fun c => decide (c = ' ') || decide (c = '\t') ||
      decide (c = '\n') || decide (c = '\x0b') || decide (c = '\x0c') ||
      decide (c = '\r')) (d :: rest) = d :: rest := by
    rw [List.dropWhile_cons, hws]
    rfl
  have htake : List.takeWhile is_digit (d :: rest) = d :: rest :=
    takeWhile_all hd
  have hplus : ¬ d = '+' := hne2 '+' (by decide)
  have hminus : ¬ d = '-' := hne2 '-' (by decide)
  unfold stoullM
  rw [hdrop]
  simp only [if_neg hplus, if_neg hminus, htake, List.isEmpty_cons,
    Bool.false_eq_true, if_false]

/-- The three well-formed shapes of a Range header the specification names:
`bytes=<start>-<end>`, `bytes=<start>-` and `bytes=-<suffix>`. -/
inductive RangeForm where
  | full (a b : Nat)
  | fromStart (a : Nat)
  | suffix (k : Nat)

/-- The header string of a range form. -/
def RangeForm.render : RangeForm → String
  | .full a b => String.mk ("bytes=".data ++ natDecimal a ++ '-' :: natDecimal b)
  | .fromStart a => String.mk ("bytes=".data ++ natDecimal a ++ ['-'])
  | .suffix k => String.mk ("bytes=".data ++ '-' :: natDecimal k)

/-- The absolute `[start, end]` interval a form resolves to against a file of
`n` bytes, as computed by `parse_range_header` (and §4.5 of the
specification): a suffix keeps the last `k` bytes, open-ended forms run to
`n - 1` (in `size_t` arithmetic). -/
def RangeForm.resolve : RangeForm → Nat → Nat × Nat
  | .full a b, _ => (a, b)
  | .fromStart a, n => (a, sub64 n 1)
  | .suffix k, n => (if n > k then n - k else 0, sub64 n 1)

/-- The largest numeral a form carries. -/
def RangeForm.maxNumeral : RangeForm → Nat
  | .full a b => max a b
  | .fromStart a => a
  | .suffix k => k

theorem dash_not_mem_natDecimal (n : Nat) : '-' ∉ natDecimal n := by
  intro hmem
  have := natDecimal_all_digits n '-' hmem
  exact absurd this (by decide)

theorem stoullM_natDecimal {n : Nat} (hn : n < 2 ^ 64) :
    stoullM (natDecimal n) = some n := by
  rw [stoullM_digits (natDecimal n) (natDecimal_ne_nil n) (natDecimal_all_digits n),
    digitsVal_natDecimal]
  rw [if_neg (by omega)]

/-- `parse_range_header` on a rendered form whose numerals fit `size_t`:
the resolved interval with the validity test
`start < N && end < N && start ≤ end`. -/
theorem parse_range_header_render (f : RangeForm) (N : Nat)
    (hf : f.maxNumeral < 2 ^ 64) :
    parse_range_header f.render N
      = { start := (f.resolve N).1, stop := (f.resolve N).2,
          is_valid := decide ((f.resolve N).1 < N) && decide ((f.resolve N).2 < N)
            && decide ((f.resolve N).1 ≤ (f.resolve N).2) } := by
  have h6 : ("bytes=".data).length = 6 := rfl
  cases f with
  | full a b =>
    have ha : a < 2 ^ 64 := lt_of_le_of_lt (le_max_left a b) hf
    have hb : b < 2 ^ 64 := lt_of_le_of_lt (le_max_right a b) hf
    unfold parse_range_header RangeForm.render
    rw [show starts_with (String.mk ("bytes=".data ++ natDecimal a ++ '-' :: natDecimal b))
        "bytes=" = true from isPrefixOf_self_append _ _]
    simp only [Bool.not_true, Bool.false_eq_true, if_false]
    rw [show (String.mk ("bytes=".data ++ natDecimal a ++ '-' :: natDecimal b)).data.drop 6
        = natDecimal a ++ '-' :: natDecimal b from by
      show (("bytes=".data) ++ (natDecimal a ++ '-' :: natDecimal b)).drop 6 = _
      rw [← h6, List.drop_left]]
    rw [splitFirstChar_spec '-' (natDecimal a) (natDecimal b) (dash_not_mem_natDecimal a)]
    simp only [List.isEmpty_eq_true]
    rw [if_neg (by simp [natDecimal_ne_nil a]), if_neg (by simp [natDecimal_ne_nil a]),
      if_neg (by simp [natDecimal_ne_nil b])]
    rw [stoullM_natDecimal ha, stoullM_natDecimal hb]
    rfl
  | fromStart a =>
    have ha : a < 2 ^ 64 := hf
    unfold parse_range_header RangeForm.render
    rw [show starts_with (String.mk ("bytes=".data ++ natDecimal a ++ ['-'])) "bytes="
        = true from isPrefixOf_self_append _ _]
    simp only [Bool.not_true, Bool.false_eq_true, if_false]
    rw [show (String.mk ("bytes=".data ++ natDecimal a ++ ['-'])).data.drop 6
        = natDecimal a ++ '-' :: [] from by
      show (("bytes=".data) ++ (natDecimal a ++ ['-'])).drop 6 = _
      rw [← h6, List.drop_left]]
    rw [splitFirstChar_spec '-' (natDecimal a) [] (dash_not_mem_natDecimal a)]
    simp only [List.isEmpty_eq_true]
    rw [if_neg (by simp [natDecimal_ne_nil a]), if_neg (by simp [natDecimal_ne_nil a]),
      if_pos trivial]
    rw [stoullM_natDecimal ha]
    rfl
  | suffix k =>
    have hk : k < 2 ^ 64 := hf
    unfold parse_range_header RangeForm.render
    rw [show starts_with (String.mk ("bytes=".data ++ '-' :: natDecimal k)) "bytes="
        = true from isPrefixOf_self_append _ _]
    simp only [Bool.not_true, Bool.false_eq_true, if_false]
    rw [show (String.mk ("bytes=".data ++ '-' :: natDecimal k)).data.drop 6
        = [] ++ '-' :: natDecimal k from by
      show (("bytes=".data) ++ ('-' :: natDecimal k)).drop 6 = _
      rw [← h6, List.drop_left]
      rfl]
    rw [splitFirstChar_spec '-' [] (natDecimal k) (by simp)]
    simp only [List.isEmpty_eq_true]
    rw [if_neg (by simp [natDecimal_ne_nil k]), if_pos trivial]
    rw [stoullM_natDecimal hk]
    rfl

/-- C7 (amended): for a cached, mapped file of `N` bytes and a Range header
in one of the three well-formed shapes whose numerals fit `size_t`
(numerals of `2^64` or more overflow `stoull` and are rejected with
RANGE_NOT_SATISFIABLE even when the resolved interval is satisfiable —
see `c7_suffix_overflow_rejected`), `parse_range_header` computes the
resolved absolute interval, and `serve_file` answers a partial-content
SUCCESS with `content_length = end - start + 1` and data pointing into the
mapping at offset `start` exactly when `start ≤ end < N`, and
RANGE_NOT_SATISFIABLE otherwise. -/
theorem c7_range_success_iff_in_bounds (cfg : StaticCfg)
    (routes : List (String × String)) (env : Env) (now : Nat) (st : HState)
    (request_path fp : String) (headers : List (String × String)) (N : Nat)
    (mt : Int) (e : CacheEntryM) (f : RangeForm)
    (hresolve : resolve_file_path cfg routes request_path = fp)
    (hfp : fp ≠ "")
    (hforb : is_file_forbidden cfg fp = false)
    (hfs : env.fs fp = some ⟨N, mt⟩)
    (hinm : alookup headers "if-none-match" = none)
    (hims : alookup headers "if-modified-since" = none)
    (henable : cfg.enable_range_requests = true)
    (hrange : alookup headers "range" = some f.render)
    (hcache : alookup st.cache fp = some e)
    (hpath : e.file_path = fp)
    (hmapped : e.mapped = true)
    (hf : f.maxNumeral < 2 ^ 64) :
    parse_range_header f.render N
      = { start := (f.resolve N).1, stop := (f.resolve N).2,
          is_valid := decide ((f.resolve N).1 < N) && decide ((f.resolve N).2 < N)
            && decide ((f.resolve N).1 ≤ (f.resolve N).2) }
    ∧ ((f.resolve N).1 ≤ (f.resolve N).2 ∧ (f.resolve N).2 < N →
        (serve_file cfg routes env now st request_path headers).1.status = .SUCCESS
        ∧ (serve_file cfg routes env now st request_path headers).1.is_partial_content = true
        ∧ (serve_file cfg routes env now st request_path headers).1.range_start = (f.resolve N).1
        ∧ (serve_file cfg routes env now st request_path headers).1.range_end = (f.resolve N).2
        ∧ (serve_file cfg routes env now st request_path headers).1.total_size = N
        ∧ (serve_file cfg routes env now st request_path headers).1.content_length
            = (f.resolve N).2 - (f.resolve N).1 + 1
        ∧ (serve_file cfg routes env now st request_path headers).1.data
            = .mapped fp (f.resolve N).1)
    ∧ (¬ ((f.resolve N).1 ≤ (f.resolve N).2 ∧ (f.resolve N).2 < N) →
        (serve_file cfg routes env now st request_path headers).1.status
          = .RANGE_NOT_SATISFIABLE) := by
  have hchar := parse_range_header_render f N hf
  have hvalid : entry_is_valid env e = true := by
    simp [entry_is_valid, hpath, hfs, hmapped]
  refine ⟨hchar, ?_, ?_⟩ <;>
    rw [serve_file_reaches_body cfg routes env now st request_path fp headers N mt
        hresolve hfp hforb hfs hinm hims,
      serve_body_hit cfg env now st fp headers N mt _ e hcache hvalid]
  · intro hok
    have hv : (parse_range_header f.render N).is_valid = true := by
      rw [hchar]
      simp only [Bool.and_eq_true, decide_eq_true_eq]
      exact ⟨⟨lt_of_le_of_lt hok.1 hok.2, hok.2⟩, hok.1⟩
    simp only [serve_entry, hrange, henable, hv, if_true, serve_finish, Bool.not_true,
      Bool.and_false, Bool.false_eq_true, if_false, entryData, hmapped, hpath]
    rw [hchar]
    simp
  · intro hbad
    have hv : (parse_range_header f.render N).is_valid = false := by
      rw [hchar]
      simp only [Bool.and_eq_true, decide_eq_true_eq, Bool.and_eq_false_iff]
      by_cases h1 : (f.resolve N).1 ≤ (f.resolve N).2
      · have h2 : ¬ (f.resolve N).2 < N := fun hh => hbad ⟨h1, hh⟩
        simp [h2]
      · simp [h1]
    simp only [serve_entry, hrange, henable, hv, Bool.false_eq_true, if_false]

/-- The cached, mapped entry of the range scenario: a 1000-byte file. -/
def c7e : CacheEntryM :=
  { file_path := "static/big.bin", content_type := "application/octet-stream"
    etag := "\"0-0\"", last_modified := 0, file_size := 1000
    mapped := true, mapped_size := 1000 }

/-- A filesystem holding the 1000-byte file of the range scenario. -/
def c7env : Env :=
  ⟨fun p => if p = "static/big.bin" then some ⟨1000, 0⟩ else none,
   fun _ => true, fun _ => 0, fun _ => "", fun _ => "", fun _ => 0⟩

/-- The handler state holding `c7e`. -/
def c7st : HState := { cache := [("static/big.bin", c7e)], current_cache_size := 1000 }

/-- Witness for C7 (amended): `Range: bytes=10-19` against the 1000-byte
file yields partial-content SUCCESS with length 10 at offset 10. -/
theorem c7_range_success_iff_in_bounds_witness :
    ((10 : Nat) ≤ 19 ∧ (19 : Nat) < 1000)
    ∧ ((serve_file {} [("/static", "static")] c7env 1 c7st "/static/big.bin"
          [("range", (RangeForm.full 10 19).render)]).1.status = .SUCCESS
      ∧ (serve_file {} [("/static", "static")] c7env 1 c7st "/static/big.bin"
          [("range", (RangeForm.full 10 19).render)]).1.is_partial_content = true
      ∧ (serve_file {} [("/static", "static")] c7env 1 c7st "/static/big.bin"
          [("range", (RangeForm.full 10 19).render)]).1.range_start = 10
      ∧ (serve_file {} [("/static", "static")] c7env 1 c7st "/static/big.bin"
          [("range", (RangeForm.full 10 19).render)]).1.range_end = 19
      ∧ (serve_file {} [("/static", "static")] c7env 1 c7st "/static/big.bin"
          [("range", (RangeForm.full 10 19).render)]).1.total_size = 1000
      ∧ (serve_file {} [("/static", "static")] c7env 1 c7st "/static/big.bin"
          [("range", (RangeForm.full 10 19).render)]).1.content_length = 10
      ∧ (serve_file {} [("/static", "static")] c7env 1 c7st "/static/big.bin"
          [("range", (RangeForm.full 10 19).render)]).1.data
          = .mapped "static/big.bin" 10) :=
  ⟨⟨by decide, by decide⟩,
   (c7_range_success_iff_in_bounds {} [("/static", "static")] c7env 1 c7st
      "/static/big.bin" "static/big.bin"
      [("range", (RangeForm.full 10 19).render)] 1000 0 c7e (.full 10 19)
      rfl (by decide) rfl rfl rfl rfl rfl rfl rfl rfl rfl
      (by decide)).2.1 ⟨by decide, by decide⟩⟩

/-- C7 (counterexample): a suffix numeral of `2^64` resolves, per the
specification's rule, to the satisfiable interval `[0, 9]` of a 10-byte
file, yet `stoull` throws `out_of_range` on it, so `parse_range_header`
reports invalid and `serve_file` answers RANGE_NOT_SATISFIABLE instead of
a partial-content SUCCESS. -/
theorem c7_suffix_overflow_rejected :
    RangeForm.resolve (.suffix (2 ^ 64)) 10 = (0, 9)
    ∧ ((0 : Nat) ≤ 9 ∧ (9 : Nat) < 10)
    ∧ parse_range_header "bytes=-18446744073709551616" 10
        = { start := 0, stop := 0, is_valid := false }
    ∧ (serve_file {} [("/static", "static")]
        (⟨fun p => if p = "static/ten.bin" then some ⟨10, 0⟩ else none,
          fun _ => true, fun _ => 0, fun _ => "", fun _ => "", fun _ => 0⟩ : Env) 1
        { cache := [("static/ten.bin",
            { file_path := "static/ten.bin", content_type := "application/octet-stream"
              etag := "\"0-0\"", last_modified := 0, file_size := 10
              mapped := true, mapped_size := 10 })], current_cache_size := 10 }
        "/static/ten.bin"
        [("range", "bytes=-18446744073709551616")]).1.status
      = .RANGE_NOT_SATISFIABLE :=
  ⟨rfl, ⟨by decide, by decide⟩, rfl, rfl⟩

/-! ## Claim C2: cache size accounting -/

/-- The sum of `file_size` over the entries of the cache index. -/
def sumSizes (m : List (String × CacheEntryM)) : Nat :=
  (m.map (fun p => p.2.file_size)).sum

theorem alookup_isSome_iff_mem {α : Type} (m : List (String × α)) (k : String) :
    (alookup m k).isSome = true ↔ k ∈ m.map Prod.fst := by
  induction m with
  | nil => simp [alookup]
  | cons p rest ih =>
    rw [alookup_cons]
    by_cases h : p.1 = k
    · simp [h]
    · simp only [if_neg h, List.map_cons, List.mem_cons, ih]
      constructor
      · exact fun hh => Or.inr hh
      · rintro (hh | hh)
        · exact absurd hh.symm h
        · exact hh

theorem alookup_none_iff {α : Type} (m : List (String × α)) (k : String) :
    alookup m k = none ↔ k ∉ m.map Prod.fst := by
  rw [← alookup_isSome_iff_mem]
  cases alookup m k <;> simp

theorem aerase_of_not_mem {α : Type} (m : List (String × α)) (k : String)
    (h : k ∉ m.map Prod.fst) : aerase m k = m := by
  induction m with
  | nil => rfl
  | cons p rest ih =>
    simp only [List.map_cons, List.mem_cons, not_or] at h
    simp only [aerase, List.filter_cons, decide_eq_true_eq]
    rw [if_pos (fun hh => h.1 hh.symm)]
    have := ih h.2
    simp only [aerase] at this
    rw [this]

theorem keys_aerase {α : Type} (m : List (String × α)) (k : String) :
    (aerase m k).map Prod.fst = (m.map Prod.fst).filter (fun s => s ≠ k) := by
  induction m with
  | nil => rfl
  | cons p rest ih =>
    simp only [aerase, List.filter_cons, List.map_cons, ne_eq, decide_not] at *
    by_cases h : p.1 = k
    · simp [h, ih]
    · simp [h, ih]

theorem sumSizes_aerase (m : List (String × CacheEntryM)) (k : String) (e : CacheEntryM)
    (hnd : (m.map Prod.fst).Nodup) (he : alookup m k = some e) :
    sumSizes (aerase m k) = sumSizes m - e.file_size ∧ e.file_size ≤ sumSizes m := by
  induction m with
  | nil => simp [alookup] at he
  | cons p rest ih =>
    rw [alookup_cons] at he
    simp only [List.map_cons, List.nodup_cons] at hnd
    by_cases h : p.1 = k
    · rw [if_pos h] at he
      injection he with he
      have hnm : k ∉ rest.map Prod.fst := h ▸ hnd.1
      have hstep : aerase (p :: rest) k = aerase rest k := by
        simp only [aerase, List.filter_cons]
        rw [if_neg (by simp [h])]
      rw [hstep, aerase_of_not_mem rest k hnm]
      constructor
      · simp [sumSizes, he]
      · simp [sumSizes, he]
    · rw [if_neg h] at he
      obtain ⟨ih1, ih2⟩ := ih hnd.2 he
      have hstep : aerase (p :: rest) k = p :: aerase rest k := by
        simp only [aerase, List.filter_cons]
        rw [if_pos (by simpa using h)]
      rw [hstep]
      simp only [sumSizes, List.map_cons, List.sum_cons] at *
      omega

theorem aset_of_none {α : Type} (m : List (String × α)) (k : String) (v : α)
    (h : alookup m k = none) : aset m k v = m ++ [(k, v)] := by
  induction m with
  | nil => rfl
  | cons p rest ih =>
    rw [alookup_cons] at h
    by_cases hp : p.1 = k
    · simp [hp] at h
    · rw [if_neg hp] at h
      simp only [aset, if_neg hp, List.cons_append]
      rw [ih h]

theorem keys_aset_of_some {α : Type} (m : List (String × α)) (k : String) (v : α) (e : α)
    (h : alookup m k = some e) : (aset m k v).map Prod.fst = m.map Prod.fst := by
  induction m with
  | nil => simp [alookup] at h
  | cons p rest ih =>
    rw [alookup_cons] at h
    by_cases hp : p.1 = k
    · simp [aset, hp]
    · rw [if_neg hp] at h
      simp only [aset, if_neg hp, List.map_cons, ih h]

theorem sumSizes_aset_same (m : List (String × CacheEntryM)) (k : String)
    (v e : CacheEntryM) (hnd : (m.map Prod.fst).Nodup)
    (he : alookup m k = some e) (hsz : v.file_size = e.file_size) :
    sumSizes (aset m k v) = sumSizes m := by
  induction m with
  | nil => simp [alookup] at he
  | cons p rest ih =>
    rw [alookup_cons] at he
    simp only [List.map_cons, List.nodup_cons] at hnd
    by_cases hp : p.1 = k
    · rw [if_pos hp] at he
      injection he with he
      simp [aset, hp, sumSizes, hsz, he]
    · rw [if_neg hp] at he
      simp only [aset, if_neg hp]
      simp only [sumSizes, List.map_cons, List.sum_cons] at *
      rw [ih hnd.2 he]

theorem alookup_isSome_of_mem {α : Type} (m : List (String × α)) (k : String)
    (h : k ∈ m.map Prod.fst) : ∃ e, alookup m k = some e := by
  have := (alookup_isSome_iff_mem m k).mpr h
  cases hh : alookup m k with
  | none => rw [hh] at this; simp at this
  | some e => exact ⟨e, rfl⟩

theorem evictLoop_spec (needed : Nat) (es : List (Nat × String)) :
    ∀ (st : HState) (freed : Nat),
    sumSizes st.cache = st.current_cache_size →
    (st.cache.map Prod.fst).Nodup →
    (es.map Prod.snd).Perm (st.cache.map Prod.fst) →
    sumSizes (evictLoop needed es st freed).cache
        = (evictLoop needed es st freed).current_cache_size
    ∧ (evictLoop needed es st freed).cache.Sublist st.cache
    ∧ ((evictLoop needed es st freed).cache = []
        ∨ (evictLoop needed es st freed).current_cache_size + needed
            ≤ st.current_cache_size + freed)
    ∧ (evictLoop needed es st freed).stats = st.stats
    ∧ (evictLoop needed es st freed).gzip_calls = st.gzip_calls := by
  induction es with
  | nil =>
    intro st freed h1 h2 hperm
    have hcache : st.cache = [] := List.map_eq_nil_iff.mp hperm.symm.eq_nil
    exact ⟨h1, List.Sublist.refl _, Or.inl hcache, rfl, rfl⟩
  | cons t rest ih =>
    obtain ⟨t1, p⟩ := t
    intro st freed h1 h2 hperm
    have hp : p ∈ st.cache.map Prod.fst := hperm.subset (by simp)
    obtain ⟨e, he⟩ := alookup_isSome_of_mem st.cache p hp
    obtain ⟨hsum, hle⟩ := sumSizes_aerase st.cache p e h2 he
    rw [h1] at hsum hle
    have hperm2 : (rest.map Prod.snd).Perm ((aerase st.cache p).map Prod.fst) := by
      rw [keys_aerase]
      have hstep := (List.cons_perm_iff_perm_erase.mp (by simpa using hperm)).2
      have herase := h2.erase_eq_filter p
      rw [herase] at hstep
      have hfun : (fun x => x != p) = (fun s => decide (s ≠ p)) := by
        funext x
        by_cases hx : x = p <;> simp [hx]
      rw [hfun] at hstep
      exact hstep
    simp only [evictLoop, he]
    by_cases hstop : freed + e.file_size ≥ needed
    · rw [if_pos hstop]
      refine ⟨hsum, List.filter_sublist _, Or.inr ?_, rfl, rfl⟩
      simp only
      omega
    · rw [if_neg hstop]
      have h2e : ((aerase st.cache p).map Prod.fst).Nodup :=
        ((keys_aerase st.cache p) ▸ (h2.filter _))
      obtain ⟨r1, r2, r3, r4, r5⟩ := ih
        { st with cache := aerase st.cache p,
                  current_cache_size := st.current_cache_size - e.file_size }
        (freed + e.file_size) hsum h2e hperm2
      refine ⟨r1, r2.trans (List.filter_sublist _), ?_, r4, r5⟩
      rcases r3 with r3 | r3
      · exact Or.inl r3
      · refine Or.inr ?_
        simp only at r3
        omega

/-- The C2 invariant over a handler state: the size counter equals the sum
of the cached entry sizes unconditionally, the index keys are distinct, and
— under the side condition `P` (instantiated with `max_file_bytes ≤
max_cache_bytes`, which the bound needs) — the counter stays within
`max_cache_bytes`. -/
def cacheInv (P : Prop) (maxb : Nat) (st : HState) : Prop :=
  sumSizes st.cache = st.current_cache_size
  ∧ (P → st.current_cache_size ≤ maxb)
  ∧ (st.cache.map Prod.fst).Nodup

theorem insertLe_perm {α : Type} (le : α → α → Bool) (x : α) (l : List α) :
    List.Perm (insertLe le x l) (x :: l) := by
  induction l with
  | nil => exact List.Perm.refl _
  | cons y ys ih =>
    simp only [insertLe]
    by_cases h : le x y = true
    · rw [if_pos h]
    · rw [if_neg h]
      exact (ih.cons y).trans (List.Perm.swap x y ys)

theorem sortLe_perm {α : Type} (le : α → α → Bool) (l : List α) :
    List.Perm (sortLe le l) l := by
  induction l with
  | nil => exact List.Perm.refl _
  | cons x xs ih =>
    simp only [sortLe]
    exact (insertLe_perm le x _).trans (ih.cons x)

theorem cache_file_inv (P : Prop) (cfg : StaticCfg) (st : HState) (fp : String)
    (entry : CacheEntryM)
    (hinv : cacheInv P (cfg.max_cache_size_mb * 1024 * 1024) st)
    (hnone : alookup st.cache fp = none)
    (hsz : P → entry.file_size ≤ cfg.max_cache_size_mb * 1024 * 1024) :
    cacheInv P (cfg.max_cache_size_mb * 1024 * 1024) (cache_file cfg st fp entry)
    ∧ alookup (cache_file cfg st fp entry).cache fp = some entry := by
  obtain ⟨h1, h2, h3⟩ := hinv
  have hmem : fp ∉ st.cache.map Prod.fst := (alookup_none_iff _ _).mp hnone
  unfold cache_file
  dsimp only
  by_cases hev : st.current_cache_size + entry.file_size
      > cfg.max_cache_size_mb * 1024 * 1024
  · rw [if_pos hev]
    have hperm :
        ((sortLe pairLe (st.cache.map (fun pe => (pe.2.last_accessed, pe.1)))).map
          Prod.snd).Perm (st.cache.map Prod.fst) := by
      have hms := sortLe_perm pairLe
        (st.cache.map (fun pe => (pe.2.last_accessed, pe.1)))
      have := hms.map Prod.snd
      simpa [List.map_map, Function.comp] using this
    obtain ⟨r1, r2, r3, r4, r5⟩ :=
      evictLoop_spec entry.file_size _ st 0 h1 h3 hperm
    set r := evictLoop entry.file_size
      (sortLe pairLe (st.cache.map (fun pe => (pe.2.last_accessed, pe.1)))) st 0 with hr
    have hmem2 : fp ∉ r.cache.map Prod.fst :=
      fun hmm => hmem ((r2.map Prod.fst).subset hmm)
    have hnone2 : alookup r.cache fp = none := (alookup_none_iff _ _).mpr hmem2
    rw [show evict_lru_entries st entry.file_size = r from rfl]
    constructor
    · refine ⟨?_, ?_, ?_⟩
      · simp only [aset_of_none r.cache fp entry hnone2, sumSizes, List.map_append,
          List.sum_append, List.map_cons, List.sum_cons, List.map_nil, List.sum_nil]
        simp only [sumSizes] at r1
        omega
      · intro hP
        have h2p := h2 hP
        have hszp := hsz hP
        dsimp only
        rcases r3 with r3 | r3
        · have hz : r.current_cache_size = 0 := by
            rw [← r1, r3]
            rfl
          rw [hz]
          omega
        · omega
      · rw [aset_of_none r.cache fp entry hnone2]
        simp only [List.map_append, List.map_cons, List.map_nil]
        rw [List.nodup_append]
        refine ⟨(r2.map Prod.fst).nodup h3, List.nodup_singleton fp, ?_⟩
        intro x hx hx2
        simp only [List.mem_singleton] at hx2
        exact hmem2 (hx2 ▸ hx)
    · rw [alookup_aset]
      simp
  · rw [if_neg hev]
    constructor
    · refine ⟨?_, ?_, ?_⟩
      · simp only [aset_of_none st.cache fp entry hnone, sumSizes, List.map_append,
          List.sum_append, List.map_cons, List.sum_cons, List.map_nil, List.sum_nil]
        simp only [sumSizes] at h1
        omega
      · intro hP
        dsimp only
        omega
      · rw [aset_of_none st.cache fp entry hnone]
        simp only [List.map_append, List.map_cons, List.map_nil]
        rw [List.nodup_append]
        refine ⟨h3, List.nodup_singleton fp, ?_⟩
        intro x hx hx2
        simp only [List.mem_singleton] at hx2
        exact hmem (hx2 ▸ hx)
    · rw [alookup_aset]
      simp

theorem get_cached_file_inv (P : Prop) (maxb : Nat) (env : Env) (st : HState) (fp : String)
    (hinv : cacheInv P maxb st) :
    cacheInv P maxb (get_cached_file env st fp).2
    ∧ ((get_cached_file env st fp).1 = none →
        alookup (get_cached_file env st fp).2.cache fp = none)
    ∧ (∀ e, (get_cached_file env st fp).1 = some e →
        (get_cached_file env st fp).2 = st ∧ alookup st.cache fp = some e) := by
  obtain ⟨h1, h2, h3⟩ := hinv
  unfold get_cached_file
  cases halo : alookup st.cache fp with
  | none =>
    exact ⟨⟨h1, h2, h3⟩, fun _ => halo, fun e he => by simp at he⟩
  | some e =>
    dsimp only
    by_cases hv : entry_is_valid env e = true
    · rw [if_pos hv]
      exact ⟨⟨h1, h2, h3⟩, fun hh => by simp at hh, fun e2 he2 => by
        simp only [Option.some.injEq] at he2
        exact ⟨rfl, he2 ▸ rfl⟩⟩
    · rw [if_neg hv]
      obtain ⟨hs1, hs2⟩ := sumSizes_aerase st.cache fp e h3 halo
      have hmem2 : fp ∉ (aerase st.cache fp).map Prod.fst := by
        rw [keys_aerase]
        simp
      refine ⟨⟨?_, ?_, ?_⟩, fun _ => (alookup_none_iff _ _).mpr hmem2,
        fun e2 he2 => by simp at he2⟩
      · dsimp only
        omega
      · intro hP
        have h2p := h2 hP
        dsimp only
        omega
      · dsimp only
        rw [keys_aerase]
        exact h3.filter _

theorem writeback_inv (P : Prop) (maxb : Nat) (st : HState) (fp : String) (e : CacheEntryM)
    (hinv : cacheInv P maxb st)
    (hsz : ∀ e0, alookup st.cache fp = some e0 → e.file_size = e0.file_size) :
    cacheInv P maxb (writeback st fp e) := by
  obtain ⟨h1, h2, h3⟩ := hinv
  unfold writeback
  cases halo : alookup st.cache fp with
  | none => simp only [halo, Option.isSome_none, Bool.false_eq_true, if_false]
            exact ⟨h1, h2, h3⟩
  | some e0 =>
    simp only [halo, Option.isSome_some, if_true]
    refine ⟨?_, h2, ?_⟩
    · dsimp only
      rw [sumSizes_aset_same st.cache fp e e0 h3 halo (hsz e0 halo)]
      exact h1
    · dsimp only
      rw [keys_aset_of_some st.cache fp e e0 halo]
      exact h3

theorem serve_finish_inv (P : Prop) (maxb : Nat) (cfg : StaticCfg) (env : Env) (now : Nat)
    (st : HState) (fp : String) (headers : List (String × String))
    (lm : Int) (etag : String) (entry : CacheEntryM) (result0 : ServeResultM)
    (hinv : cacheInv P maxb st)
    (hsz : ∀ e0, alookup st.cache fp = some e0 → entry.file_size = e0.file_size) :
    cacheInv P maxb (serve_finish cfg env now st fp headers lm etag entry result0).2 := by
  unfold serve_finish
  dsimp only
  by_cases hc : (should_compress cfg entry.content_type result0.content_length
      && accepts_gzip headers && !result0.is_partial_content) = true
  · rw [if_pos hc]
    by_cases h0 : entry.compressed_data = ""
    · rw [if_pos h0]
      dsimp only
      by_cases hg : env.gzip (readData env result0.data result0.content_length) = ""
      · rw [if_neg (by simpa using hg)]  -- condition is ≠ "": gzip result empty → neg
        exact writeback_inv P maxb _ fp _ hinv hsz
      · rw [if_pos (by simpa using hg)]
        exact writeback_inv P maxb _ fp _ hinv hsz
    · rw [if_neg h0]
      dsimp only
      by_cases hg : entry.compressed_data ≠ ""
      · rw [if_pos hg]
        exact writeback_inv P maxb _ fp _ hinv hsz
      · rw [if_neg hg]
        exact writeback_inv P maxb _ fp _ hinv hsz
  · rw [if_neg hc]
    exact writeback_inv P maxb _ fp _ hinv hsz

theorem serve_entry_inv (P : Prop) (maxb : Nat) (cfg : StaticCfg) (env : Env) (now : Nat)
    (st : HState) (fp : String) (headers : List (String × String)) (N : Nat)
    (lm : Int) (etag : String) (entry : CacheEntryM)
    (hinv : cacheInv P maxb st)
    (hsz : ∀ e0, alookup st.cache fp = some e0 → entry.file_size = e0.file_size) :
    cacheInv P maxb (serve_entry cfg env now st fp headers N lm etag entry).2 := by
  unfold serve_entry
  rcases halo : alookup headers "range" with _ | rh
  · exact serve_finish_inv P maxb cfg env now st fp headers lm etag entry _ hinv hsz
  · cases he : cfg.enable_range_requests
    · exact serve_finish_inv P maxb cfg env now st fp headers lm etag entry _ hinv hsz
    · dsimp only
      by_cases hv : (parse_range_header rh N).is_valid = true
      · rw [if_pos hv]
        exact serve_finish_inv P maxb cfg env now _ fp headers lm etag entry _ hinv hsz
      · rw [if_neg hv]
        exact hinv

theorem serve_file_body_inv (P : Prop) (cfg : StaticCfg) (env : Env) (now : Nat)
    (st : HState) (fp : String) (headers : List (String × String)) (N : Nat)
    (lm : Int) (etag : String)
    (hfile : P → cfg.max_file_size_mb * 1024 * 1024 ≤ cfg.max_cache_size_mb * 1024 * 1024)
    (hinv : cacheInv P (cfg.max_cache_size_mb * 1024 * 1024) st) :
    cacheInv P (cfg.max_cache_size_mb * 1024 * 1024)
      (serve_file_body cfg env now st fp headers N lm etag).2 := by
  obtain ⟨g1, g2, g3⟩ := get_cached_file_inv P (cfg.max_cache_size_mb * 1024 * 1024)
    env st fp hinv
  unfold serve_file_body
  dsimp only
  rcases hget : (get_cached_file env st fp).1 with _ | e
  · have hnone := g2 hget
    by_cases hsmall : N ≤ cfg.max_file_size_mb * 1024 * 1024
    · rw [if_pos hsmall]
      by_cases hmap : env.mapOk fp = true
      · rw [if_pos hmap]
        obtain ⟨hcf, hlook⟩ := cache_file_inv P cfg (get_cached_file env st fp).2 fp
          { file_path := fp, content_type := get_mime_type fp, etag := etag,
            last_modified := lm, file_size := N, mapped := true, mapped_size := N,
            last_accessed := 0, access_count := 0, is_compressed := false,
            compressed_data := "" } g1 hnone (fun hP => le_trans hsmall (hfile hP))
        refine serve_entry_inv P _ cfg env now _ fp headers N lm etag _ hcf ?_
        intro e0 he0
        rw [show alookup (cache_file cfg (get_cached_file env st fp).2 fp
            { file_path := fp, content_type := get_mime_type fp, etag := etag,
              last_modified := lm, file_size := N, mapped := true, mapped_size := N,
              last_accessed := 0, access_count := 0, is_compressed := false,
              compressed_data := "" }).cache fp = some e0 from he0] at hlook
        injection hlook with hlook
        rw [← hlook]
      · rw [if_neg hmap]
        exact g1
    · rw [if_neg hsmall]
      refine serve_entry_inv P _ cfg env now _ fp headers N lm etag _ g1 ?_
      intro e0 he0
      rw [hnone] at he0
      exact absurd he0 (by simp)
  · obtain ⟨hst, hlook⟩ := g3 e hget
    refine serve_entry_inv P _ cfg env now _ fp headers N lm etag _ g1 ?_
    intro e0 he0
    rw [hst, hlook] at he0
    injection he0 with he0
    rw [he0]

theorem serve_file_inv (P : Prop) (cfg : StaticCfg) (routes : List (String × String))
    (env : Env) (now : Nat) (st : HState) (request_path : String)
    (headers : List (String × String))
    (hfile : P → cfg.max_file_size_mb * 1024 * 1024 ≤ cfg.max_cache_size_mb * 1024 * 1024)
    (hinv : cacheInv P (cfg.max_cache_size_mb * 1024 * 1024) st) :
    cacheInv P (cfg.max_cache_size_mb * 1024 * 1024)
      (serve_file cfg routes env now st request_path headers).2 := by
  unfold serve_file
  dsimp only
  by_cases h1 : resolve_file_path cfg routes request_path = ""
  · rw [if_pos h1]
    exact hinv
  · rw [if_neg h1]
    by_cases h2 : is_file_forbidden cfg (resolve_file_path cfg routes request_path) = true
    · rw [if_pos h2]
      exact hinv
    · rw [if_neg h2]
      cases h3 : env.fs (resolve_file_path cfg routes request_path) with
      | none => exact hinv
      | some fstat =>
        dsimp only
        by_cases h4 : alookup headers "if-none-match"
            = some (generate_etag env (resolve_file_path cfg routes request_path) fstat.mtime)
        · rw [if_pos h4]
          exact hinv
        · rw [if_neg h4]
          cases h5 : alookup headers "if-modified-since" with
          | none =>
            dsimp only
            rw [if_neg Bool.false_ne_true]
            exact serve_file_body_inv P cfg env now st _ headers fstat.size fstat.mtime
              _ hfile hinv
          | some ims =>
            dsimp only
            by_cases h6 : decide (fstat.mtime ≤ env.parseDate ims) = true
            · rw [h6, if_pos rfl]
              exact hinv
            · rw [Bool.not_eq_true] at h6
              rw [h6, if_neg Bool.false_ne_true]
              exact serve_file_body_inv P cfg env now st _ headers fstat.size fstat.mtime
                _ hfile hinv

/-- One call of `serve_file`: the ambient effects, the steady-clock stamp,
and the request. -/
structure ServeCall where
  env : Env
  now : Nat
  request_path : String
  headers : List (String × String)

/-- A sequence of `serve_file` calls against one handler. -/
def runServes (cfg : StaticCfg) (routes : List (String × String)) (st : HState)
    (calls : List ServeCall) : HState :=
  calls.foldl
    (fun st c => (serve_file cfg routes c.env c.now st c.request_path c.headers).2) st

/-- C2 (amended): after every sequence of `serve_file` calls from a fresh
handler, the sum of `file_size` over the cache index equals
`current_cache_size` — unconditionally; and provided no cacheable file can
exceed the whole cache (`max_file_size_mb ≤ max_cache_size_mb`, true of
the defaults 100 ≤ 512), `current_cache_size` stays at most
`max_cache_bytes`.  Without that proviso the bound can be violated
(`c2_bound_violated`). -/
theorem c2_cache_size_accounting (cfg : StaticCfg)
    (routes : List (String × String)) (calls : List ServeCall) :
    sumSizes (runServes cfg routes {} calls).cache
        = (runServes cfg routes {} calls).current_cache_size
    ∧ (cfg.max_file_size_mb * 1024 * 1024 ≤ cfg.max_cache_size_mb * 1024 * 1024 →
        (runServes cfg routes {} calls).current_cache_size
          ≤ cfg.max_cache_size_mb * 1024 * 1024) := by
  have main : ∀ (cs : List ServeCall) (st : HState),
      cacheInv (cfg.max_file_size_mb * 1024 * 1024 ≤ cfg.max_cache_size_mb * 1024 * 1024)
        (cfg.max_cache_size_mb * 1024 * 1024) st →
      cacheInv (cfg.max_file_size_mb * 1024 * 1024 ≤ cfg.max_cache_size_mb * 1024 * 1024)
        (cfg.max_cache_size_mb * 1024 * 1024) (runServes cfg routes st cs) := by
    intro cs
    induction cs with
    | nil => exact fun st hi => hi
    | cons c rest ih =>
      intro st hi
      exact ih _ (serve_file_inv _ cfg routes c.env c.now st c.request_path c.headers
        (fun hP => hP) hi)
  have hfin := main calls {} ⟨rfl, fun _ => Nat.zero_le _, List.nodup_nil⟩
  exact ⟨hfin.1, hfin.2.1⟩

/-- A filesystem holding one 2 MiB file for the accounting scenarios. -/
def c2env : Env :=
  ⟨fun p => if p = "statica.txt" then some ⟨2097152, 0⟩ else none,
   fun _ => true, fun _ => 0, fun _ => "", fun _ => "", fun _ => 0⟩

/-- Witness for C2 (amended) under the default configuration (100 MiB max
file, 512 MiB cache) after one serve of the 2 MiB file: the sum equality
holds outright, and the bound follows since the defaults satisfy the
proviso. -/
theorem c2_cache_size_accounting_witness :
    sumSizes (runServes {} [] {} [⟨c2env, 0, "/a.txt", []⟩]).cache
        = (runServes {} [] {} [⟨c2env, 0, "/a.txt", []⟩]).current_cache_size
    ∧ (runServes {} [] {} [⟨c2env, 0, "/a.txt", []⟩]).current_cache_size
        ≤ (StaticCfg.max_cache_size_mb {}) * 1024 * 1024 :=
  ⟨(c2_cache_size_accounting {} [] [⟨c2env, 0, "/a.txt", []⟩]).1,
   (c2_cache_size_accounting {} [] [⟨c2env, 0, "/a.txt", []⟩]).2 (by decide)⟩

/-- A 1 MiB cache with a 2 MiB per-file allowance. -/
def c2cfg : StaticCfg := { max_cache_size_mb := 1, max_file_size_mb := 2 }

/-- The handler state after serving the 2 MiB file into the 1 MiB cache. -/
def c2xState : HState := (serve_file c2cfg [] c2env 0 {} "/a.txt" []).2

/-- C2 (counterexample): with `max_file_size_mb = 2 > max_cache_size_mb = 1`
a single serve of a cacheable 2 MiB file commits — the eviction pass frees
nothing from the empty index — and leaves `current_cache_size = 2 MiB`
above `max_cache_bytes = 1 MiB`, falsifying the unconditional bound of the
claim (the sum half of the invariant still holds). -/
theorem c2_bound_violated :
    sumSizes c2xState.cache = c2xState.current_cache_size
    ∧ c2xState.current_cache_size = 2097152
    ∧ c2cfg.max_cache_size_mb * 1024 * 1024 = 1048576
    ∧ ¬ (c2xState.current_cache_size ≤ c2cfg.max_cache_size_mb * 1024 * 1024) :=
  ⟨rfl, rfl, rfl, by decide⟩
